import Mathlib

/-!
# Verification of the multilingual PDF reader's streaming read pipeline

A shallow embedding, in Lean 4, of the server-side core of the
`Multilingual_pdf_reader` repository:

* `server/services/chunkService.js` — the segmenter (`microChunk`,
  `chunkText`, `findBestSplitPoint`, `findLastMatch`);
* `server/services/languageDetector.js` — `detectLanguage`,
  `checkTranslationNeeded`;
* `server/services/translationService.js` — `smartTranslate`,
  `translateText`;
* `server/services/ttsService.js` — `getVoiceConfig`,
  `generateSpeechWithTimings`, `generateChunkWithTimings`;
* `server/services/audioMergeService.js` — `mergeAudioFiles`,
  `cleanupChunks`;
* `server/controllers/generateController.js` — `clampSpeed`,
  `normalizeVoiceGender`, `streamRead`, `stopReading`,
  `generateAudiobook`.

Texts are modelled as `List Char`; JavaScript collaborators (the `franc`
language detector, the Google-translate client, the Edge-TTS synthesiser,
the translation cache) are oracle functions bundled in an `Env` record.
`withTimeout(p, ms)` races a promise against a deadline and the caller
observes either the result or a rejection; since every catch block in the
sources treats a timeout exactly like any other rejection, a raced call's
observable outcome is modelled as a single `Except` value supplied by the
oracle, with a timeout appearing as an `.error`.
-/

namespace PdfReader

/-! ## JavaScript string primitives

`isWS` is the character class of JavaScript's `\s` (and of
`String.prototype.trim`): ASCII whitespace, NBSP, and the Unicode space
separators recognised by ECMAScript. -/

def isWS (c : Char) : Bool :=
  c.toNat = 0x20 || c.toNat = 0x09 || c.toNat = 0x0A || c.toNat = 0x0D ||
  c.toNat = 0x0B || c.toNat = 0x0C || c.toNat = 0xA0 || c.toNat = 0x1680 ||
  (0x2000 ≤ c.toNat && c.toNat ≤ 0x200A) || c.toNat = 0x2028 ||
  c.toNat = 0x2029 || c.toNat = 0x202F || c.toNat = 0x205F ||
  c.toNat = 0x3000 || c.toNat = 0xFEFF

abbrev Text := List Char

/-- `s.trimStart()`. -/
def trimStart (l : Text) : Text := l.dropWhile isWS

/-- `s.trimEnd()`. -/
def trimEnd (l : Text) : Text := (l.reverse.dropWhile isWS).reverse

/-- `s.trim()`. -/
def trim (l : Text) : Text := trimStart (trimEnd l)

/-- `s.substring(a, b)` for in-range natural offsets: the half-open slice
`[a, b)`. -/
def slice (l : Text) (a b : Nat) : Text := (l.drop a).take (b - a)

/-- Helper for `tokenize`: walk the remaining characters keeping the
current (reversed) run of same-whiteness characters. -/
def tokenizeGo (cur : Text) : Text → List Text
  | [] => [cur.reverse]
  | c :: cs =>
    match cur with
    | [] => tokenizeGo [c] cs
    | d :: _ =>
      if isWS c = isWS d then tokenizeGo (c :: cur) cs
      else cur.reverse :: tokenizeGo [c] cs

/-- `workingText.split(/(\s+)/)`: the text as a list of maximal runs,
alternating non-whitespace "word" tokens and whitespace separator tokens.
(The JavaScript result additionally contains empty-string entries at the
ends when the text starts or ends with a separator; an empty token is a
no-op in `microChunk`'s loop — it adds nothing to the current chunk and is
not a word — so the run list is processed identically.) -/
def tokenize : Text → List Text
  | [] => []
  | c :: cs => tokenizeGo [c] cs

theorem tokenizeGo_flatten : ∀ (l cur : Text),
    (tokenizeGo cur l).flatten = cur.reverse ++ l := by
  intro l
  induction l with
  | nil =>
    intro cur
    simp [tokenizeGo]
  | cons c cs ih =>
    intro cur
    match cur with
    | [] => simpa using ih [c]
    | d :: ds =>
      by_cases h : isWS c = isWS d
      · rw [tokenizeGo, if_pos h]
        rw [ih (c :: d :: ds)]
        simp
      · rw [tokenizeGo, if_neg h]
        simp only [List.flatten_cons]
        rw [ih [c]]
        simp

theorem tokenize_join (l : Text) : (tokenize l).flatten = l := by
  match l with
  | [] => rfl
  | c :: cs =>
    rw [tokenize]
    simpa using tokenizeGo_flatten cs [c]

/-! ## chunkService.js -/

def MAX_CHUNK_SIZE : Nat := 2500
def MIN_CHUNK_SIZE : Nat := 500
def MICRO_CHUNK_WORDS : Nat := 100
def MICRO_CHUNK_MAX_CHARS : Nat := 700

/-- One element of the `chunks` array produced by `microChunk`. -/
structure Chunk where
  text : Text
  charStart : Nat
  charEnd : Nat
  wordCount : Nat
deriving Repr, DecidableEq

/-- The loop state of `microChunk`: the chunks pushed so far and the
`currentChunk` / `currentWordCount` / `chunkCharStart` mutables. -/
structure MicroState where
  chunks : List Chunk
  currentChunk : Text
  currentWordCount : Nat
  chunkCharStart : Nat
deriving Repr, DecidableEq

/-- `/[.!?।]\s*$/.test(currentChunk.trimEnd())`: after stripping trailing
whitespace, the text ends in a sentence terminator. -/
def endsWithSentence (l : Text) : Bool :=
  match (trimEnd l).getLast? with
  | some c => c = '.' || c = '!' || c = '?' || c = '।'
  | none => false

/-- One iteration of `microChunk`'s `for` loop, processing one token of
the `split(/(\s+)/)` result. -/
def microStep (st : MicroState) (word : Text) : MicroState :=
  let isWord := 0 < (trim word).length
  let currentChunk := st.currentChunk ++ word
  let currentWordCount :=
    if isWord then st.currentWordCount + 1 else st.currentWordCount
  let shouldSplit := MICRO_CHUNK_WORDS ≤ currentWordCount
    || MICRO_CHUNK_MAX_CHARS ≤ currentChunk.length
  if shouldSplit && isWord then
    if endsWithSentence currentChunk || MICRO_CHUNK_WORDS ≤ currentWordCount
        || MICRO_CHUNK_MAX_CHARS ≤ currentChunk.length then
      let trimmed := trim currentChunk
      let chunks :=
        if 0 < trimmed.length then
          st.chunks ++ [⟨trimmed, st.chunkCharStart,
            st.chunkCharStart + currentChunk.length, currentWordCount⟩]
        else st.chunks
      ⟨chunks, [], 0, st.chunkCharStart + currentChunk.length⟩
    else ⟨st.chunks, currentChunk, currentWordCount, st.chunkCharStart⟩
  else ⟨st.chunks, currentChunk, currentWordCount, st.chunkCharStart⟩

/-- `microChunk(text, startOffset)` from `chunkService.js`. Returns the
`chunks` array. -/
def microChunk (text : Text) (startOffset : Nat := 0) : List Chunk :=
  if text = [] then []
  else
    let workingText := text.drop startOffset
    if (trim workingText).length = 0 then []
    else
      let words := tokenize workingText
      let st := words.foldl microStep ⟨[], [], 0, startOffset⟩
      if 0 < (trim st.currentChunk).length then
        st.chunks ++ [⟨trim st.currentChunk, st.chunkCharStart,
          st.chunkCharStart + st.currentChunk.length, st.currentWordCount⟩]
      else st.chunks

/-- `findLastMatch(text, /[X]\s/g)`: the index of the last character
satisfying `p` that is immediately followed by a whitespace character, or
`-1` when there is none. -/
def findLastMatch (p : Char → Bool) : Text → Int
  | [] => -1
  | [_] => -1
  | a :: b :: rest =>
    let r := findLastMatch p (b :: rest)
    if 0 ≤ r then r + 1
    else if p a && isWS b then 0 else -1

/-- `searchRegion.lastIndexOf(' ')`. -/
def lastIndexOfSpace : Text → Int
  | [] => -1
  | a :: rest =>
    let r := lastIndexOfSpace rest
    if 0 ≤ r then r + 1
    else if a = ' ' then 0 else -1

def isSentenceTerm (c : Char) : Bool := c = '.' || c = '!' || c = '?' || c = '।'

def isClauseTerm (c : Char) : Bool := c = ',' || c = ';'

/-- `findBestSplitPoint(text, maxSize)` from `chunkService.js`. -/
def findBestSplitPoint (text : Text) (maxSize : Nat) : Nat :=
  let searchRegion := text.take maxSize
  let sentenceEnd := findLastMatch isSentenceTerm searchRegion
  if (MIN_CHUNK_SIZE : Int) < sentenceEnd then (sentenceEnd + 1).toNat
  else
    let commaEnd := findLastMatch isClauseTerm searchRegion
    if (MIN_CHUNK_SIZE : Int) < commaEnd then (commaEnd + 1).toNat
    else
      let spaceEnd := lastIndexOfSpace searchRegion
      if (MIN_CHUNK_SIZE : Int) < spaceEnd then (spaceEnd + 1).toNat
      else maxSize

/-- The `while (remaining.length > 0)` loop of `chunkText`, with fuel.
The fuel is chosen at the call site to exceed the character count, which
bounds the number of iterations whenever `maxSize > MIN_CHUNK_SIZE`
(each iteration consumes at least one character); on fuel exhaustion, the
chunks produced so far are returned. -/
def chunkTextGo (maxSize : Nat) : Nat → Text → List Text
  | 0, _ => []
  | fuel + 1, remaining =>
    if remaining.length = 0 then []
    else if remaining.length ≤ maxSize then [trim remaining]
    else
      let splitPoint := findBestSplitPoint remaining maxSize
      let chunk := trim (remaining.take splitPoint)
      let rest := trim (remaining.drop splitPoint)
      (if 0 < chunk.length then [chunk] else []) ++
        chunkTextGo maxSize fuel rest

/-- `chunkText(text, maxSize)` from `chunkService.js`. -/
def chunkText (text : Text) (maxSize : Nat := MAX_CHUNK_SIZE) : List Text :=
  if text.length = 0 then []
  else if text.length ≤ maxSize then [text]
  else
    (chunkTextGo maxSize (text.length + 1) text).filter (fun c => 0 < c.length)

/-! ## Lemmas about `trim` and `slice` -/

theorem trim_decomp (l : Text) :
    ∃ a b, l = a ++ trim l ++ b ∧ (∀ c ∈ a, isWS c = true) ∧
      (∀ c ∈ b, isWS c = true) := by
  refine ⟨(trimEnd l).takeWhile isWS, (l.reverse.takeWhile isWS).reverse, ?_, ?_, ?_⟩
  · have h1 : l = trimEnd l ++ (l.reverse.takeWhile isWS).reverse := by
      have := List.takeWhile_append_dropWhile (p := isWS) (l := l.reverse)
      calc l = l.reverse.reverse := (List.reverse_reverse l).symm
        _ = (l.reverse.takeWhile isWS ++ l.reverse.dropWhile isWS).reverse := by rw [this]
        _ = (l.reverse.dropWhile isWS).reverse ++ (l.reverse.takeWhile isWS).reverse := by
              rw [List.reverse_append]
        _ = trimEnd l ++ (l.reverse.takeWhile isWS).reverse := rfl
    have h2 : trimEnd l = (trimEnd l).takeWhile isWS ++ trim l :=
      (List.takeWhile_append_dropWhile (p := isWS) (l := trimEnd l)).symm
    calc l = trimEnd l ++ (l.reverse.takeWhile isWS).reverse := h1
      _ = ((trimEnd l).takeWhile isWS ++ trim l) ++ (l.reverse.takeWhile isWS).reverse := by
            rw [← h2]
      _ = (trimEnd l).takeWhile isWS ++ trim l ++ (l.reverse.takeWhile isWS).reverse := by
            rw [List.append_assoc]
  · intro c hc
    exact List.mem_takeWhile_imp hc
  · intro c hc
    exact List.mem_takeWhile_imp (List.mem_reverse.mp hc)

theorem all_ws_of_trim_nil {l : Text} (h : trim l = []) :
    ∀ c ∈ l, isWS c = true := by
  obtain ⟨a, b, hl, ha, hb⟩ := trim_decomp l
  rw [h] at hl
  intro c hc
  rw [hl] at hc
  simp only [List.append_nil, List.mem_append] at hc
  rcases hc with hc | hc
  · exact ha c hc
  · exact hb c hc

theorem trim_nil_of_all_ws {l : Text} (h : ∀ c ∈ l, isWS c = true) :
    trim l = [] := by
  have hend : trimEnd l = [] := by
    unfold trimEnd
    have : l.reverse.dropWhile isWS = [] := by
      rw [List.dropWhile_eq_nil_iff]
      intro c hc
      exact h c (List.mem_reverse.mp hc)
    rw [this, List.reverse_nil]
  unfold trim trimStart
  rw [hend]
  rfl

theorem trim_ne_nil_of_mem {l : Text} {c : Char} (hc : c ∈ l)
    (hws : isWS c = false) : trim l ≠ [] := by
  intro h
  have := all_ws_of_trim_nil h c hc
  rw [hws] at this
  exact Bool.false_ne_true this

theorem exists_not_ws_of_trim_ne_nil {l : Text} (h : trim l ≠ []) :
    ∃ c ∈ l, isWS c = false := by
  by_contra hcon
  push_neg at hcon
  exact h (trim_nil_of_all_ws fun c hc => by
    have := hcon c hc
    exact Bool.not_eq_false _ |>.mp this)

theorem slice_self (l : Text) (a : Nat) : slice l a a = [] := by
  simp [slice]

theorem slice_append_slice (l : Text) {a b c : Nat} (hab : a ≤ b) (hbc : b ≤ c) :
    slice l a c = slice l a b ++ slice l b c := by
  unfold slice
  have hsum : c - a = (b - a) + (c - b) := by omega
  rw [hsum, List.take_add]
  congr 1
  rw [List.drop_drop]
  congr 2
  omega

theorem slice_of_drop_eq {l t rest : Text} {k : Nat} (h : l.drop k = t ++ rest) :
    slice l k (k + t.length) = t := by
  unfold slice
  rw [h]
  simp

theorem drop_len_le {l t rest : Text} {k : Nat} (hk : k ≤ l.length)
    (h : l.drop k = t ++ rest) : k + t.length ≤ l.length := by
  have := congrArg List.length h
  simp only [List.length_drop, List.length_append] at this
  omega

/-! ## The `microChunk` loop invariant -/

/-- The chunk ranges tile `[a, b)` contiguously: the first chunk starts at
`a`, each chunk starts where the previous one ended, the last ends at `b`. -/
def tiles : Nat → List Chunk → Nat → Prop
  | a, [], b => a = b
  | a, c :: cs, b => c.charStart = a ∧ tiles c.charEnd cs b

theorem tiles_append_one {a b : Nat} {cs : List Chunk} {c : Chunk}
    (h : tiles a cs b) (hc : c.charStart = b) :
    tiles a (cs ++ [c]) c.charEnd := by
  induction cs generalizing a with
  | nil =>
    simp only [tiles] at h
    subst h
    exact ⟨hc, rfl⟩
  | cons d ds ih =>
    obtain ⟨hd, hrest⟩ := h
    exact ⟨hd, ih hrest⟩

theorem tiles_flatten_slices (T : Text) :
    ∀ (cs : List Chunk) (a b : Nat), tiles a cs b →
      (∀ c ∈ cs, c.charStart ≤ c.charEnd) →
      a ≤ b ∧
        (cs.map (fun c => slice T c.charStart c.charEnd)).flatten = slice T a b := by
  intro cs
  induction cs with
  | nil =>
    intro a b h _
    simp only [tiles] at h
    subst h
    exact ⟨le_rfl, (slice_self T a).symm⟩
  | cons c cs ih =>
    intro a b h hmono
    obtain ⟨hstart, hrest⟩ := h
    obtain ⟨hle, hflt⟩ := ih c.charEnd b hrest (fun d hd => hmono d (List.mem_cons_of_mem _ hd))
    have hce : a ≤ c.charEnd := hstart ▸ hmono c (List.mem_cons_self _ _)
    refine ⟨le_trans hce hle, ?_⟩
    simp only [List.map_cons, List.flatten_cons, hflt, hstart]
    exact (slice_append_slice T hce hle).symm

/-- The test guarding `microChunk`'s inner `if` repeats both disjuncts of
`shouldSplit`, so whenever `shouldSplit && isWord` holds the inner test
holds as well; `microStep` therefore reduces to a two-way split. -/
theorem microStep_eq (st : MicroState) (t : Text) :
    microStep st t =
      (if (MICRO_CHUNK_WORDS ≤ (if 0 < (trim t).length then st.currentWordCount + 1 else st.currentWordCount)
            || MICRO_CHUNK_MAX_CHARS ≤ (st.currentChunk ++ t).length)
          && (0 < (trim t).length : Bool) then
        ⟨st.chunks ++
          (if 0 < (trim (st.currentChunk ++ t)).length then
            [⟨trim (st.currentChunk ++ t), st.chunkCharStart,
              st.chunkCharStart + (st.currentChunk ++ t).length,
              if 0 < (trim t).length then st.currentWordCount + 1 else st.currentWordCount⟩]
          else []), [], 0, st.chunkCharStart + (st.currentChunk ++ t).length⟩
      else
        ⟨st.chunks, st.currentChunk ++ t,
          (if 0 < (trim t).length then st.currentWordCount + 1 else st.currentWordCount),
          st.chunkCharStart⟩) := by
  unfold microStep
  by_cases hsplit : ((MICRO_CHUNK_WORDS ≤ (if 0 < (trim t).length then st.currentWordCount + 1 else st.currentWordCount)
      || MICRO_CHUNK_MAX_CHARS ≤ (st.currentChunk ++ t).length)
      && (0 < (trim t).length : Bool)) = true
  · rw [if_pos hsplit, if_pos hsplit]
    have hinner : (endsWithSentence (st.currentChunk ++ t)
        || MICRO_CHUNK_WORDS ≤ (if 0 < (trim t).length then st.currentWordCount + 1 else st.currentWordCount)
        || MICRO_CHUNK_MAX_CHARS ≤ (st.currentChunk ++ t).length) = true := by
      rcases Bool.and_eq_true_iff.mp hsplit with ⟨hss, _⟩
      rcases Bool.or_eq_true_iff.mp hss with h | h
      · rw [Bool.or_eq_true_iff]
        exact Or.inl (Bool.or_eq_true_iff.mpr (Or.inr h))
      · rw [Bool.or_eq_true_iff]
        exact Or.inr h
    rw [if_pos hinner]
    by_cases hpush : 0 < (trim (st.currentChunk ++ t)).length
    · simp only [if_pos hpush]
    · simp only [if_neg hpush, List.append_nil]
  · rw [if_neg hsplit, if_neg hsplit]

/-- The invariant that `microChunk`'s loop maintains over the working text
`W` (`text.substring(startOffset)`), after consuming its first `k`
characters. -/
structure MicroInv (W : Text) (so k : Nat) (st : MicroState) : Prop where
  hk : k ≤ W.length
  hcurlen : st.currentChunk.length ≤ k
  hcur : st.currentChunk = slice W (k - st.currentChunk.length) k
  hccs : st.chunkCharStart = so + (k - st.currentChunk.length)
  htiles : tiles so st.chunks st.chunkCharStart
  hgood : ∀ c ∈ st.chunks, so ≤ c.charStart ∧ c.charStart < c.charEnd ∧
      c.charEnd ≤ so + k ∧
      c.text = trim (slice W (c.charStart - so) (c.charEnd - so)) ∧
      c.text ≠ [] ∧ 1 ≤ c.wordCount ∧ c.wordCount ≤ MICRO_CHUNK_WORDS
  hwc0 : st.currentWordCount = 0 → ∀ c ∈ st.currentChunk, isWS c = true
  hwclt : st.currentWordCount < MICRO_CHUNK_WORDS

theorem microInv_init (W : Text) (so : Nat) :
    MicroInv W so 0 ⟨[], [], 0, so⟩ := by
  refine ⟨Nat.zero_le _, le_rfl, ?_, ?_, ?_, ?_, ?_, ?_⟩
  · simp [slice]
  · simp
  · simp [tiles]
  · intro c hc
    simp at hc
  · intro _ c hc
    simp at hc
  · simp [MICRO_CHUNK_WORDS]

theorem microInv_step {W : Text} {so k : Nat} {st : MicroState} {t : Text}
    (hInv : MicroInv W so k st) (ht : W.drop k = t ++ W.drop (k + t.length)) :
    MicroInv W so (k + t.length) (microStep st t) := by
  have hM : MICRO_CHUNK_WORDS = 100 := rfl
  have hccs0 := hInv.hccs
  have hcl0 := hInv.hcurlen
  have hwclt0 := hInv.hwclt
  have hca : (st.currentChunk ++ t).length = st.currentChunk.length + t.length :=
    List.length_append _ _
  have hk' : k + t.length ≤ W.length := drop_len_le hInv.hk ht
  have hslt : slice W k (k + t.length) = t := slice_of_drop_eq ht
  have hcurSlice : slice W (k - st.currentChunk.length) (k + t.length) =
      st.currentChunk ++ t := by
    rw [slice_append_slice W (Nat.sub_le k _) (Nat.le_add_right k _),
      ← hInv.hcur, hslt]
  have hsubarith : k + t.length - (st.currentChunk ++ t).length =
      k - st.currentChunk.length := by omega
  rw [microStep_eq]
  by_cases hword : 0 < (trim t).length
  · have hwc'eq : (if 0 < (trim t).length then st.currentWordCount + 1
        else st.currentWordCount) = st.currentWordCount + 1 := if_pos hword
    rw [hwc'eq]
    have htne : t ≠ [] := by
      intro h
      rw [h] at hword
      simp [trim, trimStart, trimEnd] at hword
    have htlen : 0 < t.length := List.length_pos.mpr htne
    by_cases hsplit : ((MICRO_CHUNK_WORDS ≤ st.currentWordCount + 1
        || MICRO_CHUNK_MAX_CHARS ≤ (st.currentChunk ++ t).length)
        && (0 < (trim t).length : Bool)) = true
    · -- push branch: a chunk covering `[chunkCharStart, chunkCharStart + |cur'|)` is emitted
      rw [if_pos hsplit]
      obtain ⟨c0, hc0mem, hc0ws⟩ :=
        exists_not_ws_of_trim_ne_nil (List.ne_nil_of_length_pos hword)
      have hcur'ne : trim (st.currentChunk ++ t) ≠ [] :=
        trim_ne_nil_of_mem (List.mem_append_right _ hc0mem) hc0ws
      have hpush : 0 < (trim (st.currentChunk ++ t)).length :=
        List.length_pos.mpr hcur'ne
      rw [if_pos hpush]
      refine ⟨hk', Nat.zero_le _, ?_, ?_, ?_, ?_, ?_, ?_⟩
      · simp [slice]
      · simp only [List.length_append, List.length_nil, Nat.sub_zero]
        omega
      · exact tiles_append_one hInv.htiles rfl
      · intro c hc
        rcases List.mem_append.mp hc with hc | hc
        · obtain ⟨h1, h2, h3, h4, h5, h6, h7⟩ := hInv.hgood c hc
          exact ⟨h1, h2, le_trans h3 (by omega), h4, h5, h6, h7⟩
        · rw [List.mem_singleton] at hc
          subst hc
          simp only
          refine ⟨by omega, by omega, by omega, ?_, hcur'ne, by omega, by omega⟩
          have h1 : st.chunkCharStart - so = k - st.currentChunk.length := by
            omega
          have h2 : st.chunkCharStart + (st.currentChunk ++ t).length - so =
              k + t.length := by omega
          rw [h1, h2, hcurSlice]
      · intro _ c hc
        simp at hc
      · simp [MICRO_CHUNK_WORDS]
    · -- carry branch for a word token: `shouldSplit` must be false
      rw [if_neg hsplit]
      have hss : ¬ MICRO_CHUNK_WORDS ≤ st.currentWordCount + 1 := by
        intro h
        apply hsplit
        rw [Bool.and_eq_true_iff]
        exact ⟨Bool.or_eq_true_iff.mpr (Or.inl (decide_eq_true h)),
          decide_eq_true hword⟩
      refine ⟨hk', by simp only [List.length_append]; omega, ?_, ?_,
        hInv.htiles, ?_, ?_, ?_⟩
      · simp only [hsubarith]
        exact hcurSlice.symm
      · simp only [hsubarith]
        exact hccs0
      · intro c hc
        obtain ⟨h1, h2, h3, h4, h5, h6, h7⟩ := hInv.hgood c hc
        exact ⟨h1, h2, le_trans h3 (by omega), h4, h5, h6, h7⟩
      · intro hwz
        exact absurd hwz (Nat.succ_ne_zero _)
      · simp only
        omega
  · have hwc'eq : (if 0 < (trim t).length then st.currentWordCount + 1
        else st.currentWordCount) = st.currentWordCount := if_neg hword
    rw [hwc'eq]
    have hsplitF : ((MICRO_CHUNK_WORDS ≤ st.currentWordCount
        || MICRO_CHUNK_MAX_CHARS ≤ (st.currentChunk ++ t).length)
        && (0 < (trim t).length : Bool)) = false := by
      rw [decide_eq_false hword, Bool.and_false]
    rw [if_neg (by rw [hsplitF]; exact Bool.false_ne_true)]
    have htws : ∀ c ∈ t, isWS c = true := by
      have htr : trim t = [] := by
        rcases List.eq_nil_or_concat (trim t) with h | ⟨_, _, h⟩
        · exact h
        · exact absurd (by rw [h]; simp) hword
      exact all_ws_of_trim_nil htr
    refine ⟨hk', by simp only [List.length_append]; omega, ?_, ?_,
      hInv.htiles, ?_, ?_, hwclt0⟩
    · simp only [hsubarith]
      exact hcurSlice.symm
    · simp only [hsubarith]
      exact hccs0
    · intro c hc
      obtain ⟨h1, h2, h3, h4, h5, h6, h7⟩ := hInv.hgood c hc
      exact ⟨h1, h2, le_trans h3 (by omega), h4, h5, h6, h7⟩
    · intro hwz c hc
      rcases List.mem_append.mp hc with hc | hc
      · exact hInv.hwc0 hwz c hc
      · exact htws c hc

theorem microInv_foldl {W : Text} {so : Nat} :
    ∀ (ts : List Text) (st : MicroState) (k : Nat),
      MicroInv W so k st → W.drop k = ts.flatten →
      MicroInv W so W.length (ts.foldl microStep st) := by
  intro ts
  induction ts with
  | nil =>
    intro st k hInv h
    simp only [List.flatten_nil] at h
    have hlen : W.length - k = 0 := by
      have := congrArg List.length h
      simpa using this
    have hk : k = W.length := by
      have := hInv.hk
      omega
    subst hk
    exact hInv
  | cons t ts ih =>
    intro st k hInv h
    simp only [List.flatten_cons] at h
    have hdrop : W.drop (k + t.length) = ts.flatten := by
      have h1 : (W.drop k).drop t.length = ts.flatten := by
        rw [h]
        simp
      rw [List.drop_drop] at h1
      exact h1
    have ht : W.drop k = t ++ W.drop (k + t.length) := by
      rw [hdrop, h]
    simp only [List.foldl_cons]
    exact ih (microStep st t) (k + t.length) (microInv_step hInv ht) hdrop

theorem slice_drop_shift (text : Text) (so a b : Nat) :
    slice (text.drop so) a b = slice text (so + a) (so + b) := by
  unfold slice
  rw [List.drop_drop]
  congr 1
  omega
/-- The chunk list `microChunk` builds from the loop's final state `st`:
the pushed chunks, plus the trailing remainder when its trim is
non-empty. -/
def microFinish (st : MicroState) : List Chunk :=
  if 0 < (trim st.currentChunk).length then
    st.chunks ++ [⟨trim st.currentChunk, st.chunkCharStart,
      st.chunkCharStart + st.currentChunk.length, st.currentWordCount⟩]
  else st.chunks

theorem microChunk_eq_finish (text : Text) (so : Nat) (hnil : text ≠ [])
    (hws : ¬ (trim (text.drop so)).length = 0) :
    microChunk text so =
      microFinish ((tokenize (text.drop so)).foldl microStep ⟨[], [], 0, so⟩) := by
  unfold microChunk microFinish
  rw [if_neg hnil, if_neg hws]

/-- What the final invariant yields about `microFinish st`, for any state
`st` satisfying the invariant with the whole working text consumed. -/
theorem microFinish_master (text : Text) (so : Nat) (W : Text)
    (hWdef : W = text.drop so) (st : MicroState)
    (hInv : MicroInv W so W.length st) :
    ∃ (b : Nat) (rest : Text),
      tiles so (microFinish st) b ∧
      ((microFinish st).map
        (fun c => slice text c.charStart c.charEnd)).flatten ++ rest =
          text.drop so ∧
      (∀ c ∈ rest, isWS c = true) ∧
      (∀ c ∈ microFinish st, so ≤ c.charStart ∧ c.charStart < c.charEnd ∧
        c.text = trim (slice text c.charStart c.charEnd) ∧
        c.text ≠ [] ∧ 1 ≤ c.wordCount ∧ c.wordCount ≤ MICRO_CHUNK_WORDS) := by
  have hshift : ∀ a b : Nat, slice W a b = slice text (so + a) (so + b) := by
    intro a b
    rw [hWdef]
    exact slice_drop_shift text so a b
  have hgoodW : ∀ c ∈ st.chunks, so ≤ c.charStart ∧ c.charStart < c.charEnd ∧
      c.text = trim (slice text c.charStart c.charEnd) ∧
      c.text ≠ [] ∧ 1 ≤ c.wordCount ∧ c.wordCount ≤ MICRO_CHUNK_WORDS := by
    intro c hc
    obtain ⟨h1, h2, _, h4, h5, h6, h7⟩ := hInv.hgood c hc
    refine ⟨h1, h2, ?_, h5, h6, h7⟩
    rw [h4, hshift (c.charStart - so) (c.charEnd - so),
      show so + (c.charStart - so) = c.charStart from by omega,
      show so + (c.charEnd - so) = c.charEnd from by omega]
  have hcurDrop : st.currentChunk = W.drop (W.length - st.currentChunk.length) := by
    have hc := hInv.hcur
    unfold slice at hc
    rw [show W.length - (W.length - st.currentChunk.length) = st.currentChunk.length
      from by have := hInv.hcurlen; omega] at hc
    have hlen : (W.drop (W.length - st.currentChunk.length)).length =
        st.currentChunk.length := by
      simp only [List.length_drop]
      have := hInv.hcurlen
      omega
    exact hc.trans (List.take_of_length_le (le_of_eq hlen))
  have hcurSl : slice text st.chunkCharStart
      (st.chunkCharStart + st.currentChunk.length) = st.currentChunk := by
    have h2 := hshift (W.length - st.currentChunk.length) W.length
    have h3 : so + (W.length - st.currentChunk.length) = st.chunkCharStart := by
      have := hInv.hccs
      omega
    have h4 : so + W.length = st.chunkCharStart + st.currentChunk.length := by
      have := hInv.hccs
      have := hInv.hcurlen
      omega
    rw [h3, h4] at h2
    rw [← h2, ← hInv.hcur]
  unfold microFinish
  by_cases hrem : 0 < (trim st.currentChunk).length
  · rw [if_pos hrem]
    have hremne : trim st.currentChunk ≠ [] := List.ne_nil_of_length_pos hrem
    have hcurne : st.currentChunk ≠ [] := by
      intro h
      rw [h] at hremne
      exact hremne (trim_nil_of_all_ws (by intro c hc; simp at hc))
    have hcurpos : 0 < st.currentChunk.length := List.length_pos.mpr hcurne
    have hwcpos : 1 ≤ st.currentWordCount := by
      rcases Nat.eq_zero_or_pos st.currentWordCount with h | h
      · exact absurd (trim_nil_of_all_ws (hInv.hwc0 h)) hremne
      · exact h
    have hend : st.chunkCharStart + st.currentChunk.length = so + W.length := by
      have := hInv.hccs
      have := hInv.hcurlen
      omega
    have htl : tiles so (st.chunks ++ [(⟨trim st.currentChunk, st.chunkCharStart,
        st.chunkCharStart + st.currentChunk.length, st.currentWordCount⟩ : Chunk)])
        (so + W.length) := by
      have := tiles_append_one hInv.htiles
        (c := ⟨trim st.currentChunk, st.chunkCharStart,
          st.chunkCharStart + st.currentChunk.length, st.currentWordCount⟩) rfl
      simpa [hend] using this
    refine ⟨so + W.length, [], htl, ?_, by simp, ?_⟩
    · have hmono : ∀ c ∈ st.chunks ++ [(⟨trim st.currentChunk, st.chunkCharStart,
          st.chunkCharStart + st.currentChunk.length, st.currentWordCount⟩ : Chunk)],
          c.charStart ≤ c.charEnd := by
        intro c hc
        rcases List.mem_append.mp hc with hc | hc
        · exact le_of_lt (hInv.hgood c hc).2.1
        · rw [List.mem_singleton] at hc
          subst hc
          simp only
          omega
      obtain ⟨_, hflt⟩ := tiles_flatten_slices text _ so (so + W.length) htl hmono
      rw [hflt, List.append_nil]
      have h2 := hshift 0 W.length
      rw [Nat.add_zero] at h2
      rw [← h2, hWdef]
      simp [slice]
    · intro c hc
      rcases List.mem_append.mp hc with hc | hc
      · exact hgoodW c hc
      · rw [List.mem_singleton] at hc
        subst hc
        simp only
        refine ⟨?_, ?_, ?_, hremne, hwcpos, le_of_lt hInv.hwclt⟩
        · rw [hInv.hccs]
          omega
        · omega
        · rw [hcurSl]
  · rw [if_neg hrem]
    have hrestws : ∀ c ∈ st.currentChunk, isWS c = true :=
      all_ws_of_trim_nil (by
        rcases List.eq_nil_or_concat (trim st.currentChunk) with h | ⟨_, _, h⟩
        · exact h
        · exact absurd (by rw [h]; simp) hrem)
    refine ⟨st.chunkCharStart, st.currentChunk, hInv.htiles, ?_, hrestws, hgoodW⟩
    have hmono : ∀ c ∈ st.chunks, c.charStart ≤ c.charEnd := by
      intro c hc
      exact le_of_lt (hInv.hgood c hc).2.1
    obtain ⟨_, hflt⟩ := tiles_flatten_slices text st.chunks so st.chunkCharStart
      hInv.htiles hmono
    rw [hflt, hInv.hccs]
    have h2 := hshift 0 (W.length - st.currentChunk.length)
    rw [Nat.add_zero] at h2
    have h3 : slice W 0 (W.length - st.currentChunk.length) =
        W.take (W.length - st.currentChunk.length) := by
      simp [slice]
    rw [← h2, h3, ← hWdef]
    nth_rewrite 2 [hcurDrop]
    exact List.take_append_drop _ W

/-- Everything `microChunk` guarantees at once: contiguous tiling of the
chunk offset ranges starting at `startOffset`, round-trip of the
untrimmed slices up to a whitespace-only tail `rest`, and per-chunk
well-formedness. -/
theorem microChunk_master (text : Text) (so : Nat) :
    ∃ (b : Nat) (rest : Text),
      tiles so (microChunk text so) b ∧
      ((microChunk text so).map
        (fun c => slice text c.charStart c.charEnd)).flatten ++ rest =
          text.drop so ∧
      (∀ c ∈ rest, isWS c = true) ∧
      (∀ c ∈ microChunk text so, so ≤ c.charStart ∧ c.charStart < c.charEnd ∧
        c.text = trim (slice text c.charStart c.charEnd) ∧
        c.text ≠ [] ∧ 1 ≤ c.wordCount ∧ c.wordCount ≤ MICRO_CHUNK_WORDS) := by
  by_cases hnil : text = []
  · rw [show microChunk text so = [] from by rw [hnil]; rfl, hnil]
    exact ⟨so, [], rfl, by simp, by simp, by simp⟩
  by_cases hws : (trim (text.drop so)).length = 0
  · rw [show microChunk text so = [] from by
      unfold microChunk
      rw [if_neg hnil, if_pos hws]]
    refine ⟨so, text.drop so, rfl, by simp, ?_, by simp⟩
    exact all_ws_of_trim_nil (List.length_eq_zero.mp hws)
  rw [microChunk_eq_finish text so hnil hws]
  exact microFinish_master text so (text.drop so) rfl _
    (microInv_foldl (tokenize (text.drop so)) _ 0 (microInv_init _ so)
      (by simpa using (tokenize_join (text.drop so)).symm))

/-! ## Bounds for `chunkText` -/

theorem trim_length_le (l : Text) : (trim l).length ≤ l.length := by
  unfold trim trimStart trimEnd
  calc ((l.reverse.dropWhile isWS).reverse.dropWhile isWS).length
      ≤ (l.reverse.dropWhile isWS).reverse.length :=
        (List.dropWhile_suffix isWS).length_le
    _ = (l.reverse.dropWhile isWS).length := List.length_reverse _
    _ ≤ l.reverse.length := (List.dropWhile_suffix isWS).length_le
    _ = l.length := List.length_reverse _

theorem findLastMatch_bound (p : Char → Bool) : ∀ l : Text,
    findLastMatch p l = -1 ∨
      (0 ≤ findLastMatch p l ∧ (findLastMatch p l).toNat + 2 ≤ l.length) := by
  intro l
  induction l with
  | nil => exact Or.inl rfl
  | cons a l ih =>
    match l, ih with
    | [], _ => exact Or.inl rfl
    | b :: rest, ih =>
      simp only [findLastMatch]
      rcases ih with h | ⟨h0, h2⟩
      · rw [h]
        rw [if_neg (by omega)]
        by_cases hpb : (p a && isWS b) = true
        · rw [if_pos hpb]
          right
          constructor
          · omega
          · simp only [Int.toNat_zero, List.length_cons]
            omega
        · rw [if_neg hpb]
          exact Or.inl rfl
      · rw [if_pos h0]
        right
        refine ⟨by omega, ?_⟩
        simp only [List.length_cons] at h2 ⊢
        omega

theorem lastIndexOfSpace_bound : ∀ l : Text,
    lastIndexOfSpace l = -1 ∨
      (0 ≤ lastIndexOfSpace l ∧ (lastIndexOfSpace l).toNat + 1 ≤ l.length) := by
  intro l
  induction l with
  | nil => exact Or.inl rfl
  | cons a l ih =>
    simp only [lastIndexOfSpace]
    rcases ih with h | ⟨h0, h1⟩
    · rw [h]
      rw [if_neg (by omega)]
      by_cases ha : (a = ' ') = True
      · rw [if_pos (by simpa using ha)]
        right
        simp only [Int.toNat_zero, List.length_cons]
        omega
      · rw [if_neg (by simpa using ha)]
        exact Or.inl rfl
    · rw [if_pos h0]
      right
      refine ⟨by omega, ?_⟩
      simp only [List.length_cons] at h1 ⊢
      omega

theorem findBestSplitPoint_le (text : Text) (maxSize : Nat) :
    findBestSplitPoint text maxSize ≤ maxSize := by
  unfold findBestSplitPoint
  dsimp only
  have hreg : (text.take maxSize).length ≤ maxSize := by
    simp [List.length_take]
  rcases findLastMatch_bound isSentenceTerm (text.take maxSize) with h | ⟨h0, h2⟩ <;>
    rcases findLastMatch_bound isClauseTerm (text.take maxSize) with h' | ⟨h0', h2'⟩ <;>
    rcases lastIndexOfSpace_bound (text.take maxSize) with h'' | ⟨h0'', h1''⟩ <;>
    split <;> try split <;> try split
  all_goals omega

theorem findBestSplitPoint_floor (text : Text) (maxSize : Nat) :
    findBestSplitPoint text maxSize = maxSize ∨
      MIN_CHUNK_SIZE < findBestSplitPoint text maxSize := by
  unfold findBestSplitPoint
  dsimp only
  split
  · next h => right; omega
  split
  · next h => right; omega
  split
  · next h => right; omega
  · left; rfl

theorem chunkTextGo_le (maxSize : Nat) : ∀ (fuel : Nat) (remaining : Text),
    ∀ c ∈ chunkTextGo maxSize fuel remaining, c.length ≤ maxSize := by
  intro fuel
  induction fuel with
  | zero =>
    intro remaining c hc
    simp [chunkTextGo] at hc
  | succ fuel ih =>
    intro remaining c hc
    rw [chunkTextGo] at hc
    by_cases h0 : remaining.length = 0
    · rw [if_pos h0] at hc
      simp at hc
    rw [if_neg h0] at hc
    by_cases h1 : remaining.length ≤ maxSize
    · rw [if_pos h1] at hc
      rw [List.mem_singleton] at hc
      subst hc
      exact le_trans (trim_length_le _) h1
    rw [if_neg h1] at hc
    rcases List.mem_append.mp hc with hc | hc
    · have hsp := findBestSplitPoint_le remaining maxSize
      by_cases hp : 0 < (trim (remaining.take (findBestSplitPoint remaining maxSize))).length
      · rw [if_pos hp, List.mem_singleton] at hc
        subst hc
        calc (trim (remaining.take (findBestSplitPoint remaining maxSize))).length
            ≤ (remaining.take (findBestSplitPoint remaining maxSize)).length :=
              trim_length_le _
          _ ≤ findBestSplitPoint remaining maxSize := by simp [List.length_take]
          _ ≤ maxSize := hsp
      · rw [if_neg hp] at hc
        simp at hc
    · exact ih _ c hc

theorem chunkText_le (text : Text) (maxSize : Nat) :
    ∀ c ∈ chunkText text maxSize, c.length ≤ maxSize := by
  intro c hc
  unfold chunkText at hc
  by_cases h0 : text.length = 0
  · rw [if_pos h0] at hc
    simp at hc
  rw [if_neg h0] at hc
  by_cases h1 : text.length ≤ maxSize
  · rw [if_pos h1, List.mem_singleton] at hc
    subst hc
    exact h1
  rw [if_neg h1] at hc
  exact chunkTextGo_le maxSize _ text c (List.mem_filter.mp hc).1


/-! ## Claims about the segmenter -/

/-- C1 (amended): the segments returned by `microChunk` have contiguous,
monotonically increasing `[charStart, charEnd)` ranges — each segment
starts where the previous one ended, the first at the start offset — and
concatenating the underlying untrimmed slices reconstructs
`pageText[startOffset:]` up to a dropped whitespace-only suffix (the exact
round-trip of the original claim fails when a whitespace-only tail follows
the last split point; see the counterexample). -/
theorem microChunk_roundtrip_upto_ws (text : Text) (so : Nat) :
    ∃ (b : Nat) (rest : Text),
      tiles so (microChunk text so) b ∧
      ((microChunk text so).map
        (fun c => slice text c.charStart c.charEnd)).flatten ++ rest =
          text.drop so ∧
      ∀ c ∈ rest, isWS c = true := by
  obtain ⟨b, rest, h1, h2, h3, _⟩ := microChunk_master text so
  exact ⟨b, rest, h1, h2, h3⟩

/-- C1 (counterexample): on the whitespace-only page `"   "` with start
offset 0, `microChunk` returns no segments, so the concatenation of the
segments' untrimmed slices is `""`, not `pageText[0:] = "   "` — the
round-trip is not exact. -/
theorem microChunk_roundtrip_counterexample :
    ¬ (((microChunk ("   ".toList) 0).map
      (fun c => slice ("   ".toList) c.charStart c.charEnd)).flatten =
      ("   ".toList).drop 0) := by decide

set_option maxRecDepth 4000 in
/-- C9 (counterexample): a single 701-character whitespace-free word is
emitted as one segment whose trimmed text has 701 characters, exceeding
the micro granularity's 700-character cap — the cap is soft, not hard. -/
theorem microChunk_cap_counterexample :
    (microChunk (List.replicate 701 'a') 0).any
      (fun c => MICRO_CHUNK_MAX_CHARS < c.text.length) = true := by decide

/-- C9 (amended): the segmentation bounds that actually hold.  For micro
granularity the hard guarantee is `wordCount ≤ 100` per segment (the
700-character limit is only a soft target, exceeded when a single long
word token or whitespace run is appended, cf. the counterexample).  For
batch granularity no chunk exceeds `maxSize` characters, and
`findBestSplitPoint` never returns a split point at or below the
500-character floor except the forced cut at `maxSize` itself. -/
theorem segmentation_bounds (text btext : Text) (so maxSize : Nat) :
    (∀ c ∈ microChunk text so, c.wordCount ≤ MICRO_CHUNK_WORDS) ∧
    (∀ c ∈ chunkText btext maxSize, c.length ≤ maxSize) ∧
    (findBestSplitPoint btext maxSize = maxSize ∨
      MIN_CHUNK_SIZE < findBestSplitPoint btext maxSize) := by
  refine ⟨?_, chunkText_le btext maxSize, findBestSplitPoint_floor btext maxSize⟩
  intro c hc
  obtain ⟨_, _, _, _, _, hgood⟩ := microChunk_master text so
  exact (hgood c hc).2.2.2.2.2

/-- Witness for C9 (amended) at concrete inputs: the single segment of
`"hello world. test"` has `wordCount ≤ 100`, and the single batch chunk of
`"hello"` with `maxSize = 600` has length `≤ 600`. -/
theorem segmentation_bounds_witness :
    (⟨"hello world. test".toList, 0, 17, 3⟩ : Chunk).wordCount ≤ MICRO_CHUNK_WORDS ∧
    ("hello".toList).length ≤ 600 :=
  ⟨(segmentation_bounds ("hello world. test".toList) ("hello".toList) 0 600).1 _
      (by decide),
    (segmentation_bounds ("hello world. test".toList) ("hello".toList) 0 600).2.1 _
      (by decide)⟩

/-- C10: every segment emitted by `microChunk` has non-empty trimmed
text, `wordCount ≥ 1`, `charStart ≥ startOffset`,
`charEnd > charStart`, and its `text` equals the whitespace-trim of the
underlying slice `pageText[charStart:charEnd]`; an empty or
whitespace-only remainder yields an empty segment list. -/
theorem microChunk_wellformed (text : Text) (so : Nat) :
    (∀ c ∈ microChunk text so,
      c.text ≠ [] ∧ 1 ≤ c.wordCount ∧ so ≤ c.charStart ∧
      c.charStart < c.charEnd ∧
      c.text = trim (slice text c.charStart c.charEnd)) ∧
    (trim (text.drop so) = [] → microChunk text so = []) := by
  constructor
  · intro c hc
    obtain ⟨_, _, _, _, _, hgood⟩ := microChunk_master text so
    obtain ⟨h1, h2, h3, h4, h5, _⟩ := hgood c hc
    exact ⟨h4, h5, h1, h2, h3⟩
  · intro h
    unfold microChunk
    by_cases hnil : text = []
    · rw [if_pos hnil]
    · rw [if_neg hnil, if_pos (by rw [h]; rfl)]

/-- Witness for C10 at a concrete input: the single segment of
`"hello world. test"` satisfies all the well-formedness fields, and the
whitespace-only page `" "` yields no segments. -/
theorem microChunk_wellformed_witness :
    ((⟨"hello world. test".toList, 0, 17, 3⟩ : Chunk).text ≠ [] ∧
      1 ≤ (⟨"hello world. test".toList, 0, 17, 3⟩ : Chunk).wordCount ∧
      0 ≤ (⟨"hello world. test".toList, 0, 17, 3⟩ : Chunk).charStart ∧
      (⟨"hello world. test".toList, 0, 17, 3⟩ : Chunk).charStart <
        (⟨"hello world. test".toList, 0, 17, 3⟩ : Chunk).charEnd ∧
      (⟨"hello world. test".toList, 0, 17, 3⟩ : Chunk).text =
        trim (slice ("hello world. test".toList)
          (⟨"hello world. test".toList, 0, 17, 3⟩ : Chunk).charStart
          (⟨"hello world. test".toList, 0, 17, 3⟩ : Chunk).charEnd)) ∧
    microChunk (" ".toList) 0 = [] :=
  ⟨(microChunk_wellformed ("hello world. test".toList) 0).1 _ (by decide),
    (microChunk_wellformed (" ".toList) 0).2 (by decide)⟩



/-! ## JavaScript numbers, `clampSpeed`, `normalizeVoiceGender`

`clampSpeed` appears identically in `generateController.js` (lines 31-35)
and `ttsService.js` (lines 21-25); it is defined once here.  `Number(x)`
is modelled by `jsToNumber`: numeric inputs pass through, strings go
through a decimal parser covering the sign/digits/decimal-point grammar
(`Number("")` is `0`; anything unparsable — like `"abc"` — and the
non-finite results `NaN`/`±Infinity` are all modelled as `JSNum.nan`,
since `Number.isFinite` rejects them alike and no caller distinguishes
them; hexadecimal and exponent literals are not modelled). -/

/-- A JavaScript number as observed through `Number.isFinite`: a finite
value, or not-finite (`NaN` / `±Infinity`). -/
inductive JSNum where
  | num (q : ℚ)
  | nan
deriving DecidableEq

/-- A request-body value fed into `Number(...)`: already numeric, or a
string. -/
inductive JSValue where
  | num (q : ℚ)
  | str (s : String)
deriving DecidableEq

def digitVal (c : Char) : Nat := c.toNat - '0'.toNat

def digitsToNat (l : Text) : Nat := l.foldl (fun acc c => acc * 10 + digitVal c) 0

/-- Decimal string-to-number parsing: optional sign, digits, optional
fractional part. -/
def parseDecimal (l : Text) : Option ℚ :=
  let signed : Int × Text :=
    match l with
    | '+' :: r => (1, r)
    | '-' :: r => (-1, r)
    | r => (1, r)
  let intPart := signed.2.takeWhile Char.isDigit
  let rest := signed.2.dropWhile Char.isDigit
  match rest with
  | [] =>
    if intPart = [] then none
    else some (Rat.divInt (signed.1 * digitsToNat intPart) 1)
  | '.' :: frac =>
    if frac.all Char.isDigit ∧ (intPart ≠ [] ∨ frac ≠ []) then
      some (Rat.divInt
        (signed.1 * (digitsToNat intPart * 10 ^ frac.length + digitsToNat frac))
        (10 ^ frac.length))
    else none
  | _ => none

/-- `Number(x)` for the request-body values the server receives. -/
def jsToNumber : JSValue → JSNum
  | .num q => .num q
  | .str s =>
    let t := trim s.toList
    if t = [] then .num 0
    else
      match parseDecimal t with
      | some q => .num q
      | none => .nan

/-- `clampSpeed(speed)` from `generateController.js` / `ttsService.js`. -/
def clampSpeed (speed : JSValue) : ℚ :=
  match jsToNumber speed with
  | .nan => 1
  | .num q => max (Rat.divInt 1 2) (min 2 q)

/-- `normalizeVoiceGender(voiceGender)` from `generateController.js`. -/
def normalizeVoiceGender (voiceGender : String) : String :=
  if voiceGender = "male" then "male" else "female"

/-- C8: the resolved playback speed always lies in `[0.5, 2.0]`;
`speed = 0` resolves to `0.5`, `speed = 5` to `2.0`, the non-numeric
`speed = "abc"` to `1.0`; the resolved voice gender is always `female` or
`male`, and `"robot"` resolves to `female`. -/
theorem speed_voice_clamping :
    clampSpeed (.num 0) = 1/2 ∧
    clampSpeed (.num 5) = 2 ∧
    clampSpeed (.str "abc") = 1 ∧
    (∀ v : JSValue, 1/2 ≤ clampSpeed v ∧ clampSpeed v ≤ 2) ∧
    normalizeVoiceGender "robot" = "female" ∧
    (∀ g : String, normalizeVoiceGender g = "female" ∨
      normalizeVoiceGender g = "male") := by
  have half : Rat.divInt 1 2 = (1 : ℚ)/2 := by
    rw [Rat.divInt_eq_div]
    norm_num
  refine ⟨by norm_num [clampSpeed, jsToNumber, half],
    by norm_num [clampSpeed, jsToNumber, half], by decide, ?_, by decide, ?_⟩
  · intro v
    unfold clampSpeed
    match jsToNumber v with
    | .nan => norm_num
    | .num q =>
      rw [half]
      constructor
      · exact le_max_left _ _
      · have h2 : min 2 q ≤ 2 := min_le_left _ _
        have h3 : (1:ℚ)/2 ≤ 2 := by norm_num
        exact max_le h3 h2
  · intro g
    unfold normalizeVoiceGender
    by_cases h : g = "male"
    · rw [if_pos h]
      right
      rfl
    · rw [if_neg h]
      left
      rfl



/-! ## Collaborator oracles

The external capabilities the pipeline calls — the `franc` detector, the
Google-translate client, the Edge-TTS synthesiser, and the translation
cache — are modelled as oracle functions in `Env`.  Every embedded
service function returns its result *paired with the list of collaborator
calls it made*, so that theorems can speak about which collaborators were
invoked (the calls are the functions' only side effects besides the files
tracked separately in the batch composer).  A `withTimeout` deadline
expiry is modelled as an `.error` outcome of the raced call, which is how
every catch block in the sources treats it. -/

/-- `{word, startMs, endMs}` subtitle entries produced by Edge-TTS. -/
structure WordTiming where
  word : String
  startMs : Nat
  endMs : Nat
deriving DecidableEq, Repr

/-- The voice parameters `getVoiceConfig` assembles for one synthesis
call. -/
structure VoiceConfig where
  voice : String
  lang : String
  ratePercent : Int
  pitch : String
  volume : String
deriving DecidableEq, Repr

/-- One collaborator invocation. -/
inductive CollabCall where
  | translateApi (text : Text) (target : String)
  | synth (config : VoiceConfig) (text : Text)
deriving DecidableEq, Repr

/-- Errors of the translate client; rate-limit conditions are signalled
distinguishably (`error.name === 'TooManyRequestsError' || error.code === 429`). -/
inductive ApiError where
  | rateLimited
  | other (msg : String)
deriving DecidableEq, Repr

/-- The collaborator environment: `franc`, the translate client (its raced
outcome, a timeout being an `.error`), the synthesiser (likewise; on
success it yields the word timings read back from the subtitle file, `[]`
when that file is missing or unparsable), and the translation cache
lookup.  Cache writes are not modelled: within one request every
`cacheKey` is distinct (it embeds page, chunk index and language), so no
write is ever read back during the run. -/
structure Env where
  franc : Text → String
  translateApi : Text → String → Except ApiError Text
  synth : VoiceConfig → Text → Except String (List WordTiming)
  cacheLookup : String → Option Text

/-! ## languageDetector.js -/

structure DetectedLanguage where
  code : String
  name : String
  confidence : String
deriving DecidableEq, Repr

/-- `FRANC_TO_APP`. -/
def FRANC_TO_APP : String → Option String := fun c =>
  if c = "eng" then some "en"
  else if c = "hin" then some "hi"
  else if c = "ben" then some "bn"
  else none

/-- `APP_TO_NAME`. -/
def APP_TO_NAME : String → Option String := fun c =>
  if c = "en" then some "English"
  else if c = "hi" then some "Hindi"
  else if c = "bn" then some "Bengali"
  else none

/-- `detectLanguage(text)` from `languageDetector.js`. -/
def detectLanguage (env : Env) (text : Text) : DetectedLanguage :=
  if (trim text).length < 20 then ⟨"en", "English", "low"⟩
  else
    let sample := text.take 3000
    let detected := env.franc sample
    if detected = "und" then
      let fullDetected := env.franc (text.take 10000)
      match FRANC_TO_APP fullDetected with
      | some appCode =>
        if fullDetected ≠ "und" then
          ⟨appCode, (APP_TO_NAME appCode).getD "", "medium"⟩
        else ⟨"en", "English", "low"⟩
      | none => ⟨"en", "English", "low"⟩
    else
      match FRANC_TO_APP detected with
      | some appCode => ⟨appCode, (APP_TO_NAME appCode).getD "", "high"⟩
      | none => ⟨"en", "English", "low"⟩

structure TranslationCheck where
  needsTranslation : Bool
  sourceLang : String
  sourceLangName : String
  targetLang : String
  confidence : String
deriving DecidableEq, Repr

/-- `checkTranslationNeeded(sourceText, targetLang)` from
`languageDetector.js`: detects the language **of the given text** and
compares it with the target code. -/
def checkTranslationNeeded (env : Env) (sourceText : Text)
    (targetLang : String) : TranslationCheck :=
  let detected := detectLanguage env sourceText
  ⟨detected.code ≠ targetLang, detected.code, detected.name, targetLang,
    detected.confidence⟩

/-! ## translationService.js -/

def isTermChar (c : Char) : Bool := c = '.' || c = '!' || c = '?' || c = '।'

/-- `text.match(/[^.!?।]+[.!?।]+/g)`: the maximal runs of
non-terminators followed by terminators; unmatched leading terminators
and an unterminated tail are dropped.  Fuel-based recursion (the fuel,
chosen as the text length at the call site, bounds the number of matches). -/
def matchSentencesGo : Nat → Text → List Text
  | 0, _ => []
  | _, [] => []
  | fuel + 1, c :: cs =>
    if isTermChar c then matchSentencesGo fuel cs
    else
      let nonterm := (c :: cs).takeWhile (fun d => ¬ isTermChar d)
      let rest1 := (c :: cs).dropWhile (fun d => ¬ isTermChar d)
      let terms := rest1.takeWhile isTermChar
      let rest2 := rest1.dropWhile isTermChar
      if terms = [] then []
      else (nonterm ++ terms) :: matchSentencesGo fuel rest2

def matchSentences (l : Text) : List Text := matchSentencesGo l.length l

def MAX_TRANSLATE_LENGTH : Nat := 4500

/-- The sentence-batching loop of `translateText` for texts longer than
4500 characters: accumulate sentences into batches of at most 4500
characters, translating each flushed batch. -/
def translateBatches (env : Env) (targetLang : String) :
    List Text → Text → List Text → Except ApiError (List Text) × List CollabCall
  | [], batch, parts =>
    if trim batch ≠ [] then
      match env.translateApi batch targetLang with
      | .ok t => (.ok (parts ++ [t]), [.translateApi batch targetLang])
      | .error e => (.error e, [.translateApi batch targetLang])
    else (.ok parts, [])
  | sentence :: rest, batch, parts =>
    if MAX_TRANSLATE_LENGTH < batch.length + sentence.length then
      if trim batch ≠ [] then
        match env.translateApi batch targetLang with
        | .ok t =>
          let r := translateBatches env targetLang rest sentence (parts ++ [t])
          (r.1, .translateApi batch targetLang :: r.2)
        | .error e => (.error e, [.translateApi batch targetLang])
      else translateBatches env targetLang rest sentence parts
    else translateBatches env targetLang rest (batch ++ sentence) parts

/-- `" ".intercalate` of the translated parts (`translatedParts.join(' ')`). -/
def joinSpace (parts : List Text) : Text :=
  match parts with
  | [] => []
  | p :: rest => rest.foldl (fun acc q => acc ++ [' '] ++ q) p

/-- `translateText(text, targetLang, cacheKey)` from
`translationService.js`.  The `error.name === 'TooManyRequestsError'`
catch branch retries once on the first 4500 characters after a delay. -/
def translateText (env : Env) (text : Text) (targetLang : String)
    (cacheKey : Option String) : Except String Text × List CollabCall :=
  if targetLang = "en" && (text.take 200).all (fun c => c.toNat ≤ 0x7F || isWS c) then
    (.ok text, [])
  else
    match cacheKey.bind env.cacheLookup with
    | some cached => (.ok cached, [])
    | none =>
      let attempt : Except ApiError Text × List CollabCall :=
        if text.length ≤ MAX_TRANSLATE_LENGTH then
          (env.translateApi text targetLang, [.translateApi text targetLang])
        else
          let sentences :=
            match matchSentences text with
            | [] => [text]
            | ss => ss
          match translateBatches env targetLang sentences [] [] with
          | (.ok parts, calls) => (.ok (joinSpace parts), calls)
          | (.error e, calls) => (.error e, calls)
      match attempt with
      | (.ok t, calls) => (.ok t, calls)
      | (.error .rateLimited, calls) =>
        match env.translateApi (text.take MAX_TRANSLATE_LENGTH) targetLang with
        | .ok t =>
          (.ok t, calls ++ [.translateApi (text.take MAX_TRANSLATE_LENGTH) targetLang])
        | .error _ =>
          (.error "Translation failed",
            calls ++ [.translateApi (text.take MAX_TRANSLATE_LENGTH) targetLang])
      | (.error (.other msg), calls) => (.error ("Translation failed: " ++ msg), calls)

structure TranslationResult where
  text : Text
  translated : Bool
  sourceLang : String
deriving DecidableEq, Repr

/-- `smartTranslate(text, targetLang, cacheKey)` from
`translationService.js`.  Its signature takes **three** parameters; the
controller's call sites pass a fourth argument (the session's
`sourceLanguageCode`), which JavaScript silently drops, so the
translate-or-skip decision below re-detects the language of each
segment's own text via `checkTranslationNeeded`. -/
def smartTranslate (env : Env) (text : Text) (targetLang : String)
    (cacheKey : Option String) : Except String TranslationResult × List CollabCall :=
  let check := checkTranslationNeeded env text targetLang
  if !check.needsTranslation then
    (.ok ⟨text, false, check.sourceLang⟩, [])
  else
    match translateText env text targetLang cacheKey with
    | (.ok t, calls) => (.ok ⟨t, true, check.sourceLang⟩, calls)
    | (.error e, calls) => (.error e, calls)



/-! ## ttsService.js -/

structure VoicePack where
  lang : String
  female : String
  male : String
deriving DecidableEq, Repr

/-- `VOICE_MAP`. -/
def VOICE_MAP : String → Option VoicePack := fun l =>
  if l = "en" then some ⟨"en-US", "en-US-JennyNeural", "en-US-GuyNeural"⟩
  else if l = "hi" then some ⟨"hi-IN", "hi-IN-SwaraNeural", "hi-IN-MadhurNeural"⟩
  else if l = "bn" then some ⟨"bn-IN", "bn-IN-TanishaaNeural", "bn-IN-BashkarNeural"⟩
  else if l = "ta" then some ⟨"ta-IN", "ta-IN-PallaviNeural", "ta-IN-ValluvarNeural"⟩
  else if l = "te" then some ⟨"te-IN", "te-IN-ShrutiNeural", "te-IN-MohanNeural"⟩
  else if l = "mr" then some ⟨"mr-IN", "mr-IN-AarohiNeural", "mr-IN-ManoharNeural"⟩
  else if l = "gu" then some ⟨"gu-IN", "gu-IN-DhwaniNeural", "gu-IN-NiranjanNeural"⟩
  else if l = "kn" then some ⟨"kn-IN", "kn-IN-SapnaNeural", "kn-IN-GaganNeural"⟩
  else if l = "ml" then some ⟨"ml-IN", "ml-IN-SobhanaNeural", "ml-IN-MidhunNeural"⟩
  else if l = "pa" then some ⟨"pa-IN", "pa-IN-GurleenNeural", "pa-IN-VikasNeural"⟩
  else if l = "or" then some ⟨"or-IN", "or-IN-RupashreeNeural", "or-IN-KishoreNeural"⟩
  else if l = "as" then some ⟨"as-IN", "as-IN-YashicaNeural", "as-IN-PrabhatNeural"⟩
  else if l = "ur" then some ⟨"ur-IN", "ur-IN-GulNeural", "ur-IN-SalmanNeural"⟩
  else none

def EN_PACK : VoicePack := ⟨"en-US", "en-US-JennyNeural", "en-US-GuyNeural"⟩

/-- `Math.round(x)`: round half towards positive infinity,
`⌊x + 1/2⌋`, written on the reduced fraction so the kernel can evaluate
it (`x + 1/2 = (2*num + den) / (2*den)` with `den > 0`). -/
def jsRound (q : ℚ) : Int := Int.fdiv (2 * q.num + q.den) (2 * q.den)

/-- `speedToRate(speed)` from `ttsService.js`, kept as the signed percent
number (the source formats it as a `"+N%"`/`"-N%"` string):
`Math.round((clamped - 1) * 100)`, the argument written as the fraction
`100*(num - den) / den` of the clamped speed. -/
def speedToRate (speed : JSValue) : Int :=
  jsRound (Rat.divInt (100 * ((clampSpeed speed).num - (clampSpeed speed).den))
    ((clampSpeed speed).den))

/-- The options object the controller passes to the TTS service
(`playback = { speed, voiceGender }`). -/
structure TtsOptions where
  voiceGender : String
  speed : JSValue
deriving DecidableEq

/-- `getVoiceConfig(language, voiceGender, speed)` from `ttsService.js`. -/
def getVoiceConfig (language : String) (voiceGender : String)
    (speed : JSValue) : VoiceConfig :=
  let voicePack := (VOICE_MAP language).getD EN_PACK
  let selectedVoice := if voiceGender = "male" then voicePack.male else voicePack.female
  ⟨if selectedVoice ≠ "" then selectedVoice
    else if voicePack.female ≠ "" then voicePack.female
    else EN_PACK.female,
   if voicePack.lang ≠ "" then voicePack.lang else "en-US",
   speedToRate speed, "+0Hz", "+5%"⟩

structure TtsResult where
  audioPath : String
  wordTimings : List WordTiming
deriving DecidableEq, Repr

/-- `generateSpeechWithTimings(text, language, outputPath, options)` from
`ttsService.js`: synthesise with the target language's voice; **if that
fails and the language is not `en`, silently retry the same text with the
default English female voice**; only when that also fails (or the
language is `en`) does the call reject. -/
def generateSpeechWithTimings (env : Env) (text : Text) (language : String)
    (outputPath : String) (options : TtsOptions) :
    Except String TtsResult × List CollabCall :=
  if (trim text).length = 0 then (.error "Empty text provided for TTS", [])
  else
    let config := getVoiceConfig language options.voiceGender options.speed
    match env.synth config text with
    | .ok timings => (.ok ⟨outputPath, timings⟩, [.synth config text])
    | .error primaryError =>
      if language ≠ "en" then
        let fallbackConfig := getVoiceConfig "en" "female" options.speed
        match env.synth fallbackConfig text with
        | .ok timings =>
          (.ok ⟨outputPath, timings⟩, [.synth config text, .synth fallbackConfig text])
        | .error e2 =>
          (.error ("Speech generation failed for " ++ language ++ ": " ++ e2),
            [.synth config text, .synth fallbackConfig text])
      else
        (.error ("Speech generation failed for " ++ language ++ ": " ++ primaryError),
          [.synth config text])

/-- The retry loop of `generateChunkWithTimings` (attempts
`1..retries`, re-raising the last error). -/
def ttsAttempts (env : Env) (text : Text) (language : String)
    (outputPath : String) (options : TtsOptions) :
    Nat → Except String TtsResult × List CollabCall
  | 0 => (.error "TTS retries exhausted", [])
  | n + 1 =>
    match generateSpeechWithTimings env text language outputPath options with
    | (.ok r, calls) => (.ok r, calls)
    | (.error e, calls) =>
      if n = 0 then (.error e, calls)
      else
        let r := ttsAttempts env text language outputPath options n
        (r.1, calls ++ r.2)

/-- `generateChunkWithTimings(text, language, outputPath, options, retries)`
from `ttsService.js` (default `retries = 2`). -/
def generateChunkWithTimings (env : Env) (text : Text) (language : String)
    (outputPath : String) (options : TtsOptions) (retries : Nat := 2) :
    Except String TtsResult × List CollabCall :=
  ttsAttempts env text language outputPath options retries



/-! ## audioMergeService.js

The per-session audio directory is modelled as a set of file paths
(`Fs`); a successful synthesis call writes its output path, a failed one
writes nothing (§4.3: on terminal failure no artifact is left behind). -/

abbrev Fs := List String

/-- Writing a file: insert the path (overwriting an existing file leaves
one entry). -/
def fsWrite (fs : Fs) (p : String) : Fs := if p ∈ fs then fs else fs ++ [p]

/-- `cleanupChunks(chunkPaths)` from `audioMergeService.js`:
`existsSync` then `unlinkSync` for each path, errors ignored. -/
def cleanupChunks (fs : Fs) (chunkPaths : List String) : Fs :=
  chunkPaths.foldl (fun acc p => if p ∈ acc then acc.erase p else acc) fs

/-- `mergeAudioFiles(chunkPaths, outputPath)` from
`audioMergeService.js`: reject an empty list; copy a single file; else
concatenate the buffers of the existing chunk files (missing ones are
skipped with a warning) and write the output. -/
def mergeAudioFiles (fs : Fs) (chunkPaths : List String) (outputPath : String) :
    Except String Fs :=
  match chunkPaths with
  | [] => .error "No audio chunks to merge"
  | [p] => if p ∈ fs then .ok (fsWrite fs outputPath) else .error "copyFileSync failed"
  | _ :: _ :: _ =>
    let buffers := chunkPaths.filter (fun p => decide (p ∈ fs))
    if buffers = [] then .error "Audio merge failed: No valid audio chunks found"
    else .ok (fsWrite fs outputPath)

/-! ## generateController.js -/

/-- A Document Session as stored by `processText`
(`audioCacheMap`/`lastAccess` are irrelevant to the claims and omitted). -/
structure Session where
  id : String
  fullText : Text
  pages : List Text
  detectedLanguage : Option DetectedLanguage

/-- The SSE events `streamRead` emits (§6 of the spec; the terminal
`error{message}` event of the outer catch cannot occur in this model
because every failure of the embedded body is already handled). -/
inductive StreamEvent where
  | streamStart (totalChunks : Nat) (detectedLanguage : Option DetectedLanguage)
      (needsTranslation : Bool)
  | chunkReady (chunkIndex : Nat) (totalChunks : Nat) (audioUrl : String)
      (wordTimings : List WordTiming) (originalText : Text) (spokenText : Text)
      (charStart : Nat) (charEnd : Nat) (translated : Bool)
  | chunkError (chunkIndex : Nat) (message : String)
  | stopped
  | pageDone (pageIndex : Nat)
deriving DecidableEq, Repr

/-- The index a result event (`chunk-ready` or `chunk-error`) carries. -/
def resultIndex? : StreamEvent → Option Nat
  | .chunkReady i _ _ _ _ _ _ _ _ => some i
  | .chunkError i _ => some i
  | _ => none

/-- The chunk audio file name (the `Date.now()` component, which only
makes the opaque name unique, is omitted). -/
def audioFileNameFor (pageIndex : Nat) (language : String) (i : Nat) : String :=
  "chunk_p" ++ toString pageIndex ++ "_" ++ language ++ "_" ++ toString i ++ ".mp3"

def chunkCacheKey (sessionId : String) (pageIndex i : Nat) (language : String) :
    String :=
  sessionId ++ "_p" ++ toString pageIndex ++ "_chunk" ++ toString i ++ "_" ++ language

/-- The body of one iteration of `streamRead`'s chunk loop: the
translate stage (`withTimeout(smartTranslate(chunk.text, language,
cacheKey, sourceLanguageCode), 45s)` — the fourth argument is dropped by
`smartTranslate`'s three-parameter signature — with the catch that falls
back to the untranslated text), then the synthesise stage with its catch
that retries once on the original text, then the per-chunk catch that
reports a `chunk-error`. -/
def processChunk (env : Env) (sessionId : String) (sourceLanguageCode : String)
    (language : String) (pageIndex : Nat) (playback : TtsOptions)
    (totalChunks : Nat) (i : Nat) (chunk : Chunk) :
    StreamEvent × List CollabCall :=
  let audioFileName := audioFileNameFor pageIndex language i
  let audioUrl := "/audio/" ++ sessionId ++ "/" ++ audioFileName
  let tr := smartTranslate env chunk.text language
    (some (chunkCacheKey sessionId pageIndex i language))
  let translationResult :=
    match tr.1 with
    | .ok r => r
    | .error _ => ⟨chunk.text, false, sourceLanguageCode⟩
  let spokenText := translationResult.text
  let translated := translationResult.translated
  let tts := generateChunkWithTimings env spokenText language audioFileName playback 2
  match tts.1 with
  | .ok r =>
    (.chunkReady i totalChunks audioUrl r.wordTimings chunk.text spokenText
      chunk.charStart chunk.charEnd translated, tr.2 ++ tts.2)
  | .error _ =>
    let fb := generateChunkWithTimings env chunk.text language audioFileName playback 2
    match fb.1 with
    | .ok r =>
      (.chunkReady i totalChunks audioUrl r.wordTimings chunk.text chunk.text
        chunk.charStart chunk.charEnd false, tr.2 ++ tts.2 ++ fb.2)
    | .error e => (.chunkError i e, tr.2 ++ tts.2 ++ fb.2)

/-- `streamRead`'s `for` loop over the chunks: before each chunk the
stream's `active` flag is re-read (`active i` is the value observed at the
top of iteration `i` — a stop request or a transport disconnect clears
it); when cleared, a `stopped` event is emitted and the loop exits without
starting further work. -/
def streamLoop (env : Env) (sessionId : String) (sourceLanguageCode : String)
    (language : String) (pageIndex : Nat) (playback : TtsOptions)
    (active : Nat → Bool) (totalChunks : Nat) :
    Nat → List Chunk → List StreamEvent × List CollabCall
  | _, [] => ([], [])
  | i, c :: rest =>
    if active i then
      let pc := processChunk env sessionId sourceLanguageCode language pageIndex
        playback totalChunks i c
      let r := streamLoop env sessionId sourceLanguageCode language pageIndex
        playback active totalChunks (i + 1) rest
      (pc.1 :: r.1, pc.2 ++ r.2)
    else ([.stopped], [])

/-- The request body of `POST /stream-read`.  `pageIndex` is an `Int`
because `Number.isInteger` rejects everything else before the stream
opens. -/
structure StreamRequest where
  sessionId : String
  language : String
  pageIndex : Int
  startOffset : JSValue
  speed : JSValue
  voiceGender : String

/-- `streamRead(req, res)` from `generateController.js`: resolve the
session, validate the page index, clamp the playback options and the
start offset, run the Segmenter, then emit `stream-start`, the per-chunk
results in order, and `page-done` (which the source emits even after a
`stopped` break).  Input errors are reported synchronously (`.error`),
before any event is emitted. -/
def streamRead (env : Env) (sessions : String → Option Session)
    (req : StreamRequest) (active : Nat → Bool) :
    Except String (List StreamEvent × List CollabCall) :=
  match sessions req.sessionId with
  | none => .error "Session not found"
  | some session =>
    if 0 ≤ req.pageIndex ∧ req.pageIndex < session.pages.length then
      let pageIndex := req.pageIndex.toNat
      let pageText := session.pages.getD pageIndex []
      let playback : TtsOptions :=
        ⟨normalizeVoiceGender req.voiceGender, .num (clampSpeed req.speed)⟩
      let n : ℚ := match jsToNumber req.startOffset with
        | .num q => q
        | .nan => 0
      let safeStartOffset : Nat :=
        (Rat.floor (max 0 (min n ((pageText.length - 1 : Nat) : ℚ)))).toNat
      let chunks := microChunk pageText safeStartOffset
      let sourceLanguageCode :=
        match session.detectedLanguage with
        | some d => d.code
        | none => "en"
      let loop := streamLoop env req.sessionId sourceLanguageCode req.language
        pageIndex playback active chunks.length 0 chunks
      .ok (.streamStart chunks.length session.detectedLanguage
            (sourceLanguageCode != req.language) :: loop.1 ++ [.pageDone pageIndex],
        loop.2)
    else .error "Invalid page index"

/-- One entry of the `activeStreams` map. -/
structure StreamEntry where
  active : Bool
  sessionId : String
deriving DecidableEq, Repr

/-- `stopReading(req, res)` from `generateController.js`: reject a
missing session id, otherwise clear the `active` flag of every stream
whose `sessionId` matches, returning how many were stopped. -/
def stopReading (streams : List StreamEntry) (sessionId : String) :
    Except String (List StreamEntry × Nat) :=
  if sessionId = "" then .error "sessionId is required"
  else
    .ok (streams.map
        (fun st => if st.sessionId = sessionId then ⟨false, st.sessionId⟩ else st),
      (streams.filter (fun st => st.sessionId = sessionId)).length)

/-- The batch chunk file path (`Date.now()` omitted as above). -/
def bookChunkPath (pi ci : Nat) : String :=
  "book_p" ++ toString pi ++ "_c" ++ toString ci ++ ".mp3"

def bookCacheKey (sessionId : String) (pi ci : Nat) (language : String) : String :=
  sessionId ++ "_book_p" ++ toString pi ++ "_c" ++ toString ci ++ "_" ++ language

/-- One chunk of `generateAudiobook`'s nested loops: translate (with the
fall-back-to-original catch), synthesise the translated text, and on
failure synthesise the original chunk **without a catch**, so a failure
of that retry propagates out of both loops. -/
def bookChunk (env : Env) (sessionId sourceLanguageCode language : String)
    (playback : TtsOptions) (pi ci : Nat) (chunk : Text) (fs : Fs) :
    Except String Fs :=
  let tr := smartTranslate env chunk language
    (some (bookCacheKey sessionId pi ci language))
  let translationResult :=
    match tr.1 with
    | .ok r => r
    | .error _ => ⟨chunk, false, sourceLanguageCode⟩
  let chunkPath := bookChunkPath pi ci
  match (generateChunkWithTimings env translationResult.text language chunkPath
      playback 2).1 with
  | .ok _ => .ok (fsWrite fs chunkPath)
  | .error _ =>
    match (generateChunkWithTimings env chunk language chunkPath playback 2).1 with
    | .ok _ => .ok (fsWrite fs chunkPath)
    | .error e => .error e

/-- The inner chunk loop of `generateAudiobook`, accumulating the files
written and the `generatedChunkPaths` pushed after each success. -/
def bookChunksLoop (env : Env) (sessionId sourceLanguageCode language : String)
    (playback : TtsOptions) (pi : Nat) :
    Nat → List Text → Fs → List String →
      Except String Unit × Fs × List String
  | _, [], fs, gen => (.ok (), fs, gen)
  | ci, ch :: rest, fs, gen =>
    match bookChunk env sessionId sourceLanguageCode language playback pi ci ch fs with
    | .ok fs2 =>
      bookChunksLoop env sessionId sourceLanguageCode language playback pi
        (ci + 1) rest fs2 (gen ++ [bookChunkPath pi ci])
    | .error e => (.error e, fs, gen)

/-- The outer page loop of `generateAudiobook`
(`chunkText(pageText, 2200)` per page). -/
def bookPagesLoop (env : Env) (sessionId sourceLanguageCode language : String)
    (playback : TtsOptions) :
    Nat → List Text → Fs → List String →
      Except String Unit × Fs × List String
  | _, [], fs, gen => (.ok (), fs, gen)
  | pi, page :: rest, fs, gen =>
    match bookChunksLoop env sessionId sourceLanguageCode language playback pi
        0 (chunkText page 2200) fs gen with
    | (.ok _, fs2, gen2) =>
      bookPagesLoop env sessionId sourceLanguageCode language playback
        (pi + 1) rest fs2 gen2
    | r => r

/-- `generateAudiobook(req, res)` from `generateController.js`: run the
Segment Pipeline over every page's batch chunks sequentially; on any
propagated failure, `cleanupChunks(generatedChunkPaths)` deletes every
partial artifact and the whole request fails; on success the chunk files
are merged into one audiobook file and then deleted.  The per-session
audio directory starts empty at this request's paths.  Returns the
request's outcome together with the final file set. -/
def generateAudiobook (env : Env) (sessions : String → Option Session)
    (sessionId language : String) (speed : JSValue) (voiceGender : String) :
    Except String String × Fs :=
  if sessionId = "" then (.error "sessionId is required", [])
  else
    match sessions sessionId with
    | none => (.error "Session not found", [])
    | some session =>
      let playback : TtsOptions :=
        ⟨normalizeVoiceGender voiceGender, .num (clampSpeed speed)⟩
      let sourceLanguageCode :=
        match session.detectedLanguage with
        | some d => d.code
        | none => "en"
      match bookPagesLoop env sessionId sourceLanguageCode language playback
          0 session.pages [] [] with
      | (.error e, fs, gen) => (.error e, cleanupChunks fs gen)
      | (.ok _, fs, gen) =>
        if gen = [] then
          (.error "Could not generate any audiobook chunks", cleanupChunks fs gen)
        else
          let finalName := "audiobook_" ++ language ++ ".mp3"
          match mergeAudioFiles fs gen finalName with
          | .ok fs2 =>
            (.ok ("/audio/" ++ sessionId ++ "/" ++ finalName),
              cleanupChunks fs2 gen)
          | .error e => (.error e, cleanupChunks fs gen)



/-! ## Lemmas about the stream loop -/

theorem processChunk_resultIndex (env : Env) (sid slc lang : String) (pi : Nat)
    (pb : TtsOptions) (total i : Nat) (c : Chunk) :
    resultIndex? (processChunk env sid slc lang pi pb total i c).1 = some i := by
  unfold processChunk
  dsimp only
  split
  · rfl
  · split
    · rfl
    · rfl

theorem streamLoop_all_active (env : Env) (sid slc lang : String) (pi : Nat)
    (pb : TtsOptions) (active : Nat → Bool) (total : Nat)
    (hact : ∀ j, active j = true) :
    ∀ (cs : List Chunk) (i : Nat),
      (streamLoop env sid slc lang pi pb active total i cs).1.filterMap resultIndex? =
        List.range' i cs.length := by
  intro cs
  induction cs with
  | nil =>
    intro i
    rfl
  | cons c rest ih =>
    intro i
    rw [streamLoop, if_pos (hact i)]
    simp only [List.filterMap_cons, processChunk_resultIndex, List.length_cons,
      List.range'_succ]
    rw [ih (i + 1)]

theorem streamLoop_stopped_aux (env : Env) (sid slc lang : String) (pi : Nat)
    (pb : TtsOptions) (active : Nat → Bool) (total : Nat) (k : Nat)
    (hstop : active k = false) :
    ∀ (cs : List Chunk) (i : Nat), i ≤ k →
      (∀ j ∈ (streamLoop env sid slc lang pi pb active total i cs).1.filterMap
        resultIndex?, j < k) ∧
      (k < i + cs.length →
        .stopped ∈ (streamLoop env sid slc lang pi pb active total i cs).1) := by
  intro cs
  induction cs with
  | nil =>
    intro i hik
    constructor
    · intro j hj
      simp [streamLoop] at hj
    · intro hk
      simp only [List.length_nil, Nat.add_zero] at hk
      omega
  | cons c rest ih =>
    intro i hik
    by_cases hai : active i = true
    · have hne : i ≠ k := by
        intro h
        rw [h, hstop] at hai
        exact Bool.false_ne_true hai
      have hik2 : i + 1 ≤ k := by omega
      obtain ⟨ih1, ih2⟩ := ih (i + 1) hik2
      rw [streamLoop, if_pos hai]
      constructor
      · intro j hj
        simp only [List.filterMap_cons, processChunk_resultIndex,
          List.mem_cons] at hj
        rcases hj with rfl | hj
        · omega
        · exact ih1 j hj
      · intro hk
        simp only [List.length_cons] at hk
        have := ih2 (by omega)
        exact List.mem_cons_of_mem _ this
    · rw [streamLoop, if_neg hai]
      constructor
      · intro j hj
        simp [resultIndex?] at hj
      · intro _
        exact List.mem_singleton.mpr rfl

/-! ## Lemmas about the batch composer's file set -/

theorem fsWrite_nodup {fs : Fs} (h : fs.Nodup) (p : String) :
    (fsWrite fs p).Nodup := by
  unfold fsWrite
  by_cases hp : p ∈ fs
  · rw [if_pos hp]
    exact h
  · rw [if_neg hp]
    rw [List.nodup_append]
    exact ⟨h, List.nodup_singleton p, by simpa using hp⟩

theorem fsWrite_subset {fs : Fs} {gen : List String} (h : ∀ x ∈ fs, x ∈ gen)
    (p : String) : ∀ x ∈ fsWrite fs p, x ∈ gen ++ [p] := by
  intro x hx
  unfold fsWrite at hx
  by_cases hp : p ∈ fs
  · rw [if_pos hp] at hx
    exact List.mem_append_left _ (h x hx)
  · rw [if_neg hp] at hx
    rcases List.mem_append.mp hx with hx | hx
    · exact List.mem_append_left _ (h x hx)
    · exact List.mem_append_right _ hx

theorem cleanupChunks_nil {gen : List String} :
    ∀ {fs : Fs}, fs.Nodup → (∀ x ∈ fs, x ∈ gen) → cleanupChunks fs gen = [] := by
  unfold cleanupChunks
  induction gen with
  | nil =>
    intro fs _ hsub
    have : fs = [] := by
      cases fs with
      | nil => rfl
      | cons a l => exact absurd (hsub a (List.mem_cons_self _ _)) (by simp)
    rw [this]
    rfl
  | cons p rest ih =>
    intro fs hnd hsub
    simp only [List.foldl_cons]
    by_cases hp : p ∈ fs
    · rw [if_pos hp]
      refine ih (hnd.erase p) ?_
      intro x hx
      have hx2 := (hnd.mem_erase_iff).mp hx
      rcases List.mem_cons.mp (hsub x hx2.2) with h | h
      · exact absurd h hx2.1
      · exact h
    · rw [if_neg hp]
      refine ih hnd ?_
      intro x hx
      rcases List.mem_cons.mp (hsub x hx) with h | h
      · exact absurd h (fun heq => hp (heq ▸ hx))
      · exact h

theorem bookChunksLoop_invariant (env : Env) (sid slc lang : String)
    (pb : TtsOptions) (pi : Nat) :
    ∀ (chs : List Text) (ci : Nat) (fs : Fs) (gen : List String),
      fs.Nodup → (∀ x ∈ fs, x ∈ gen) →
      (bookChunksLoop env sid slc lang pb pi ci chs fs gen).2.1.Nodup ∧
      (∀ x ∈ (bookChunksLoop env sid slc lang pb pi ci chs fs gen).2.1,
        x ∈ (bookChunksLoop env sid slc lang pb pi ci chs fs gen).2.2) := by
  intro chs
  induction chs with
  | nil =>
    intro ci fs gen hnd hsub
    exact ⟨hnd, hsub⟩
  | cons ch rest ih =>
    intro ci fs gen hnd hsub
    rw [bookChunksLoop]
    cases hbc : bookChunk env sid slc lang pb pi ci ch fs with
    | ok fs2 =>
      have hfs2 : fs2 = fsWrite fs (bookChunkPath pi ci) := by
        unfold bookChunk at hbc
        dsimp only at hbc
        split at hbc
        · exact (Except.ok.inj hbc).symm
        · split at hbc
          · exact (Except.ok.inj hbc).symm
          · exact absurd hbc (by simp)
      subst hfs2
      exact ih (ci + 1) _ _ (fsWrite_nodup hnd _) (fsWrite_subset hsub _)
    | error e =>
      exact ⟨hnd, hsub⟩

theorem bookPagesLoop_invariant (env : Env) (sid slc lang : String)
    (pb : TtsOptions) :
    ∀ (pages : List Text) (pi : Nat) (fs : Fs) (gen : List String),
      fs.Nodup → (∀ x ∈ fs, x ∈ gen) →
      (bookPagesLoop env sid slc lang pb pi pages fs gen).2.1.Nodup ∧
      (∀ x ∈ (bookPagesLoop env sid slc lang pb pi pages fs gen).2.1,
        x ∈ (bookPagesLoop env sid slc lang pb pi pages fs gen).2.2) := by
  intro pages
  induction pages with
  | nil =>
    intro pi fs gen hnd hsub
    exact ⟨hnd, hsub⟩
  | cons page rest ih =>
    intro pi fs gen hnd hsub
    rw [bookPagesLoop]
    obtain ⟨h1, h2⟩ := bookChunksLoop_invariant env sid slc lang pb pi
      (chunkText page 2200) 0 fs gen hnd hsub
    cases hcl : bookChunksLoop env sid slc lang pb pi 0 (chunkText page 2200) fs gen with
    | mk r1 r2 =>
      cases r2 with
      | mk fs2 gen2 =>
        rw [hcl] at h1 h2
        cases r1 with
        | ok u =>
          exact ih (pi + 1) fs2 gen2 h1 h2
        | error e =>
          exact ⟨h1, h2⟩




/-- Decidable equality for `Except`, used to evaluate the embedded
endpoints at concrete inputs. -/
instance exceptDecEq {ε : Type} {α : Type} [DecidableEq ε] [DecidableEq α] :
    DecidableEq (Except ε α) := fun x y =>
  match x, y with
  | .ok a, .ok b =>
    if h : a = b then isTrue (by rw [h]) else isFalse (by simp [h])
  | .error e, .error f =>
    if h : e = f then isTrue (by rw [h]) else isFalse (by simp [h])
  | .ok _, .error _ => isFalse (by simp)
  | .error _, .ok _ => isFalse (by simp)

/-! ## Claims about the stream orchestrator -/


/-- C2: order preservation.  For a stream whose `active` flag is never
cleared, a per-segment result event (`chunk-ready` on success,
`chunk-error` on terminal failure) is emitted for exactly the indices
`0 .. N-1`, in strictly increasing order, where `N` is the `totalChunks`
carried by the leading `stream-start` event.  Segment `i+1`'s pipeline is
not started before segment `i`'s result has been emitted: `streamLoop`
produces the events sequentially, evaluating the next `processChunk` only
after the current result event. -/
theorem stream_order_preservation (env : Env) (sessions : String → Option Session)
    (req : StreamRequest) (active : Nat → Bool) (hact : ∀ j, active j = true)
    (evs : List StreamEvent) (calls : List CollabCall)
    (h : streamRead env sessions req active = .ok (evs, calls)) :
    ∃ (N : Nat) (dl : Option DetectedLanguage) (nt : Bool)
      (rest : List StreamEvent),
      evs = .streamStart N dl nt :: rest ∧
      evs.filterMap resultIndex? = List.range N := by
  unfold streamRead at h
  cases hsess : sessions req.sessionId with
  | none =>
    rw [hsess] at h
    exact absurd h (by simp)
  | some session =>
    rw [hsess] at h
    dsimp only at h
    by_cases hpi : 0 ≤ req.pageIndex ∧ req.pageIndex < session.pages.length
    · rw [if_pos hpi] at h
      injection h with h2
      injection h2 with hev hcalls
      subst hev
      subst hcalls
      refine ⟨_, session.detectedLanguage, _, _, rfl, ?_⟩
      simp only [List.filterMap_cons, resultIndex?, List.filterMap_append]
      rw [streamLoop_all_active env req.sessionId _ req.language _ _ active _ hact _ 0]
      simp [List.range_eq_range']
    · rw [if_neg hpi] at h
      exact absurd h (by simp)

/-- Witness for C2: the one-segment English page streamed with an
always-active flag. -/
def envOk : Env := ⟨fun _ => "eng", fun t _ => .ok t, fun _ _ => .ok [], fun _ => none⟩

def enPage : Text := "hello world this is a test page.".toList

def sessEn : Session := ⟨"S", enPage, [enPage], some ⟨"en", "English", "high"⟩⟩

def sessionsEn : String → Option Session := fun s =>
  if s = "S" then some sessEn else none

def reqEn : StreamRequest := ⟨"S", "en", 0, .num 0, .num 1, "female"⟩

def evsEn : List StreamEvent :=
  [.streamStart 1 (some ⟨"en", "English", "high"⟩) false,
   .chunkReady 0 1 "/audio/S/chunk_p0_en_0.mp3" [] enPage enPage 0 32 false,
   .pageDone 0]

def callsEn : List CollabCall :=
  [.synth ⟨"en-US-JennyNeural", "en-US", 0, "+0Hz", "+5%"⟩ enPage]

theorem stream_order_preservation_witness :
    ∃ (N : Nat) (dl : Option DetectedLanguage) (nt : Bool)
      (rest : List StreamEvent),
      evsEn = .streamStart N dl nt :: rest ∧
      evsEn.filterMap resultIndex? = List.range N :=
  stream_order_preservation envOk sessionsEn reqEn (fun _ => true)
    (fun _ => rfl) evsEn callsEn (by decide)



/-- C5: translation-failure fallback.  When segment `i`'s translate stage
fails (error or timeout), the segment is not failed and the stream is not
ended: the pipeline proceeds to synthesis with the untranslated original
segment text and, when that synthesis succeeds, the segment's
`chunk-ready` event carries `spokenText = originalText` and
`translated = false`, with the remaining segments processed unchanged. -/
theorem translation_failure_fallback (env : Env) (sid slc lang : String)
    (pi : Nat) (pb : TtsOptions) (active : Nat → Bool) (total i : Nat)
    (c : Chunk) (rest : List Chunk) (e : String) (r : TtsResult)
    (hact : active i = true)
    (htr : (smartTranslate env c.text lang
      (some (chunkCacheKey sid pi i lang))).1 = .error e)
    (htts : (generateChunkWithTimings env c.text lang
      (audioFileNameFor pi lang i) pb 2).1 = .ok r) :
    (streamLoop env sid slc lang pi pb active total i (c :: rest)).1 =
      .chunkReady i total ("/audio/" ++ sid ++ "/" ++ audioFileNameFor pi lang i)
        r.wordTimings c.text c.text c.charStart c.charEnd false ::
      (streamLoop env sid slc lang pi pb active total (i + 1) rest).1 := by
  rw [streamLoop, if_pos hact]
  show (processChunk env sid slc lang pi pb total i c).1 ::
      (streamLoop env sid slc lang pi pb active total (i + 1) rest).1 = _
  have hhead : (processChunk env sid slc lang pi pb total i c).1 =
      .chunkReady i total ("/audio/" ++ sid ++ "/" ++ audioFileNameFor pi lang i)
        r.wordTimings c.text c.text c.charStart c.charEnd false := by
    unfold processChunk
    dsimp only
    rw [htr]
    dsimp only
    rw [htts]
  rw [hhead]

/-- Witness for C5: a failing translate client, a succeeding
synthesiser, one English chunk read in Hindi. -/
def envTrFail : Env :=
  ⟨fun _ => "eng", fun _ _ => .error (.other "api down"), fun _ _ => .ok [],
    fun _ => none⟩

def cEn : Chunk := ⟨"hello this is a test".toList, 0, 20, 5⟩

theorem translation_failure_fallback_witness :
    (streamLoop envTrFail "S" "en" "hi" 0 ⟨"female", .num 1⟩ (fun _ => true)
      1 0 [cEn]).1 =
      .chunkReady 0 1 ("/audio/" ++ "S" ++ "/" ++ audioFileNameFor 0 "hi" 0)
        (⟨audioFileNameFor 0 "hi" 0, []⟩ : TtsResult).wordTimings cEn.text cEn.text
        cEn.charStart cEn.charEnd false ::
      (streamLoop envTrFail "S" "en" "hi" 0 ⟨"female", .num 1⟩ (fun _ => true)
        1 1 []).1 :=
  translation_failure_fallback envTrFail "S" "en" "hi" 0 ⟨"female", .num 1⟩
    (fun _ => true) 1 0 cEn [] "Translation failed: api down"
    ⟨audioFileNameFor 0 "hi" 0, []⟩ rfl (by decide) (by decide)

/-- C3 (counterexample): with a synthesiser that rejects the Hindi voice
but accepts the English one, `generateSpeechWithTimings` for a Hindi
segment **succeeds by silently synthesising with the default
`en-US-JennyNeural` voice** — refuting the claim that the pipeline never
synthesizes in a third language (no silent fallback to a
default-language voice). -/
def envVoiceFb : Env :=
  ⟨fun _ => "hin", fun t _ => .ok t,
    fun cfg _ => if cfg.voice = "en-US-JennyNeural" then .ok [] else .error "boom",
    fun _ => none⟩

def tHi : Text := "यह एक परीक्षण है".toList

theorem synthesis_no_third_language_counterexample :
    ((generateSpeechWithTimings envVoiceFb tHi "hi" "out.mp3"
        ⟨"female", .num 1⟩).1 =
      .ok ⟨"out.mp3", []⟩) ∧
    (.synth (getVoiceConfig "en" "female" (.num 1)) tHi) ∈
      (generateSpeechWithTimings envVoiceFb tHi "hi" "out.mp3"
        ⟨"female", .num 1⟩).2 := by
  constructor
  · decide
  · decide

/-- C3 (amended): when synthesis of the (possibly translated) text fails
(error or timeout), the pipeline retries synthesis exactly once with the
original untranslated text and the requested target language's voice
config (the TTS service may additionally fall back to the default English
voice *inside* either synthesis call — see the counterexample), setting
`spokenText` to the original text and `translated` to `false`; if that
retry also fails, the segment fails terminally as a `chunk-error` for
that index only and the stream continues with the next segments. -/
theorem synthesis_fallback (env : Env) (sid slc lang : String)
    (pi : Nat) (pb : TtsOptions) (active : Nat → Bool) (total i : Nat)
    (c : Chunk) (rest : List Chunk) (e : String)
    (hact : active i = true)
    (htts : (generateChunkWithTimings env
      (match (smartTranslate env c.text lang
        (some (chunkCacheKey sid pi i lang))).1 with
       | .ok tr => tr.text
       | .error _ => c.text) lang
      (audioFileNameFor pi lang i) pb 2).1 = .error e) :
    (∀ r : TtsResult,
      (generateChunkWithTimings env c.text lang
        (audioFileNameFor pi lang i) pb 2).1 = .ok r →
      (streamLoop env sid slc lang pi pb active total i (c :: rest)).1 =
        .chunkReady i total
          ("/audio/" ++ sid ++ "/" ++ audioFileNameFor pi lang i)
          r.wordTimings c.text c.text c.charStart c.charEnd false ::
        (streamLoop env sid slc lang pi pb active total (i + 1) rest).1) ∧
    (∀ e2 : String,
      (generateChunkWithTimings env c.text lang
        (audioFileNameFor pi lang i) pb 2).1 = .error e2 →
      (streamLoop env sid slc lang pi pb active total i (c :: rest)).1 =
        .chunkError i e2 ::
        (streamLoop env sid slc lang pi pb active total (i + 1) rest).1) := by
  constructor
  · intro r hok
    rw [streamLoop, if_pos hact]
    show (processChunk env sid slc lang pi pb total i c).1 ::
        (streamLoop env sid slc lang pi pb active total (i + 1) rest).1 = _
    have hhead : (processChunk env sid slc lang pi pb total i c).1 =
        .chunkReady i total
          ("/audio/" ++ sid ++ "/" ++ audioFileNameFor pi lang i)
          r.wordTimings c.text c.text c.charStart c.charEnd false := by
      unfold processChunk
      dsimp only
      cases htr : (smartTranslate env c.text lang
          (some (chunkCacheKey sid pi i lang))).1 with
      | ok tr =>
        rw [htr] at htts
        dsimp only at htts
        dsimp only
        rw [htts]
        dsimp only
        rw [hok]
      | error e0 =>
        rw [htr] at htts
        dsimp only at htts
        rw [htts] at hok
        exact absurd hok (by simp)
    rw [hhead]
  · intro e2 herr
    rw [streamLoop, if_pos hact]
    show (processChunk env sid slc lang pi pb total i c).1 ::
        (streamLoop env sid slc lang pi pb active total (i + 1) rest).1 = _
    have hhead : (processChunk env sid slc lang pi pb total i c).1 =
        .chunkError i e2 := by
      unfold processChunk
      dsimp only
      cases htr : (smartTranslate env c.text lang
          (some (chunkCacheKey sid pi i lang))).1 with
      | ok tr =>
        rw [htr] at htts
        dsimp only at htts
        dsimp only
        rw [htts]
        dsimp only
        rw [herr]
      | error e0 =>
        rw [htr] at htts
        dsimp only at htts
        dsimp only
        rw [htts]
        dsimp only
        rw [htts] at herr
        rw [Except.error.inj herr]
    rw [hhead]

/-- Witness for C3 (amended): a synthesiser that always fails makes both
TTS calls fail, so the terminal branch yields a `chunk-error` for that
index while the loop continues. -/
def envSynthFail : Env :=
  ⟨fun _ => "eng", fun t _ => .ok t, fun _ _ => .error "synth down",
    fun _ => none⟩

theorem synthesis_fallback_witness :
    (streamLoop envSynthFail "S" "en" "en" 0 ⟨"female", .num 1⟩
        (fun _ => true) 1 0 [cEn]).1 =
      .chunkError 0 "Speech generation failed for en: synth down" ::
      (streamLoop envSynthFail "S" "en" "en" 0 ⟨"female", .num 1⟩
        (fun _ => true) 1 1 []).1 :=
  (synthesis_fallback envSynthFail "S" "en" "en" 0 ⟨"female", .num 1⟩
    (fun _ => true) 1 0 cEn [] "Speech generation failed for en: synth down"
    rfl (by decide)).2 "Speech generation failed for en: synth down" (by decide)



/-- C4 (divergence exhibit): the translate-or-skip decision is **not**
the session-level equality check the spec documents.  `streamRead` passes
the session's `sourceLanguageCode` as a fourth argument to
`smartTranslate`, whose three-parameter signature silently drops it, and
`smartTranslate` re-detects the language of each segment's own text via
`checkTranslationNeeded`.  Failing input: a session whose detected
language is `hi`, a request with target `hi` (equal codes — the claim
then requires `translated = false` and no translation call for every
segment), and the short Hindi page `"नमस्ते"` (under 20 characters, which
`detectLanguage` maps to `en`/low).  The code translates the segment: the
`stream-start` event announces `needsTranslation = false`, yet the
translation collaborator is invoked and the chunk's `translated` field is
`true`, with `spokenText` the collaborator's output. -/
def envHi : Env :=
  ⟨fun _ => "hin", fun _ _ => .ok ("X".toList), fun _ _ => .ok [], fun _ => none⟩

def nmText : Text := "नमस्ते".toList

def sessHi : Session := ⟨"S", nmText, [nmText], some ⟨"hi", "Hindi", "high"⟩⟩

def sessionsHi : String → Option Session := fun s =>
  if s = "S" then some sessHi else none

def reqHi : StreamRequest := ⟨"S", "hi", 0, .num 0, .num 1, "female"⟩

theorem translation_decision_redetects_per_segment :
    streamRead envHi sessionsHi reqHi (fun _ => true) =
      .ok ([.streamStart 1 (some ⟨"hi", "Hindi", "high"⟩) false,
            .chunkReady 0 1 "/audio/S/chunk_p0_hi_0.mp3" [] nmText ("X".toList)
              0 6 true,
            .pageDone 0],
           [.translateApi nmText "hi",
            .synth ⟨"hi-IN-SwaraNeural", "hi-IN", 0, "+0Hz", "+5%"⟩
              ("X".toList)]) := by
  decide

/-- C7: cancellation.  A stop request naming session `S` clears the
`active` flag of every stream entry belonging to `S` and leaves other
sessions' entries untouched; and a stream whose `active` flag reads
`false` at the top of iteration `k` emits no result event with index
`≥ k` — it emits a `stopped` event and exits the loop.  The flag is
consulted only at the top of each iteration, so segment work already in
flight (any index below the first inactive check) runs to completion and
its result event is still emitted. -/
theorem cancellation (streams : List StreamEntry) (sid : String)
    (env : Env) (sid2 slc lang : String) (pi : Nat) (pb : TtsOptions)
    (active : Nat → Bool) (total : Nat) (chunks : List Chunk) (k : Nat)
    (hsid : sid ≠ "") (hstop : active k = false) :
    (∀ upd n, stopReading streams sid = .ok (upd, n) →
      (∀ st ∈ upd, st.sessionId = sid → st.active = false) ∧
      (∀ st ∈ streams, st.sessionId ≠ sid → st ∈ upd)) ∧
    (∀ j ∈ (streamLoop env sid2 slc lang pi pb active total 0 chunks).1.filterMap
      resultIndex?, j < k) ∧
    (k < chunks.length →
      .stopped ∈ (streamLoop env sid2 slc lang pi pb active total 0 chunks).1) := by
  refine ⟨?_, ?_, ?_⟩
  · intro upd n h
    unfold stopReading at h
    rw [if_neg hsid] at h
    injection h with h2
    injection h2 with hupd hn
    subst hupd
    constructor
    · intro st hst hsess
      rcases List.mem_map.mp hst with ⟨st0, hst0, heq⟩
      by_cases hm : st0.sessionId = sid
      · rw [if_pos hm] at heq
        rw [← heq]
      · rw [if_neg hm] at heq
        rw [← heq] at hsess
        exact absurd hsess hm
    · intro st hst hne
      apply List.mem_map.mpr
      exact ⟨st, hst, by rw [if_neg hne]⟩
  · exact (streamLoop_stopped_aux env sid2 slc lang pi pb active total k hstop
      chunks 0 (Nat.zero_le k)).1
  · intro hk
    exact (streamLoop_stopped_aux env sid2 slc lang pi pb active total k hstop
      chunks 0 (Nat.zero_le k)).2 (by omega)

/-- Witness for C7: two streams for sessions `S` and `T`; stopping `S`
clears exactly its flag; a two-chunk stream whose flag dies at index 1
emits `stopped`. -/
def streamsC7 : List StreamEntry := [⟨true, "S"⟩, ⟨true, "T"⟩]

def chunksC7 : List Chunk := [⟨['a'], 0, 1, 1⟩, ⟨['b'], 1, 2, 1⟩]

def actC7 : Nat → Bool := fun i => i == 0

theorem cancellation_witness :
    .stopped ∈ (streamLoop envOk "S" "en" "en" 0 ⟨"female", .num 1⟩ actC7
      2 0 chunksC7).1 ∧
    (⟨false, "S"⟩ : StreamEntry).active = false :=
  ⟨(cancellation streamsC7 "S" envOk "S" "en" "en" 0 ⟨"female", .num 1⟩ actC7
      2 chunksC7 1 (by decide) (by decide)).2.2 (by decide),
    ((cancellation streamsC7 "S" envOk "S" "en" "en" 0 ⟨"female", .num 1⟩ actC7
      2 chunksC7 1 (by decide) (by decide)).1
      [⟨false, "S"⟩, ⟨true, "T"⟩] 1 (by decide)).1 ⟨false, "S"⟩ (by decide) rfl⟩

/-- C6: batch all-or-nothing.  Whenever `generateAudiobook` returns a
failure — in particular when some segment's synthesis and its
untranslated-text retry both fail, which propagates out of both loops —
every partial per-segment audio artifact produced so far is deleted by
`cleanupChunks(generatedChunkPaths)` and no merged output file exists
afterwards: the final file set is empty. -/
theorem batch_all_or_nothing (env : Env) (sessions : String → Option Session)
    (sid lang : String) (speed : JSValue) (vg : String) (e : String)
    (h : (generateAudiobook env sessions sid lang speed vg).1 = .error e) :
    (generateAudiobook env sessions sid lang speed vg).2 = [] := by
  unfold generateAudiobook at h ⊢
  by_cases hsid : sid = ""
  · rw [if_pos hsid]
  rw [if_neg hsid] at h ⊢
  cases hsess : sessions sid with
  | none => rfl
  | some session =>
    rw [hsess] at h
    dsimp only at h ⊢
    obtain ⟨hnd, hsub⟩ := bookPagesLoop_invariant env sid
      (match session.detectedLanguage with
        | some d => d.code
        | none => "en") lang
      ⟨normalizeVoiceGender vg, .num (clampSpeed speed)⟩
      session.pages 0 [] [] (List.nodup_nil) (by intro x hx; exact absurd hx (by simp))
    cases hloop : bookPagesLoop env sid
        (match session.detectedLanguage with
          | some d => d.code
          | none => "en") lang
        ⟨normalizeVoiceGender vg, .num (clampSpeed speed)⟩
        0 session.pages [] [] with
    | mk r1 rest =>
      cases rest with
      | mk fs gen =>
        rw [hloop] at h hnd hsub
        cases r1 with
        | error e0 =>
          exact cleanupChunks_nil hnd hsub
        | ok u =>
          dsimp only at h ⊢
          by_cases hgen : gen = []
          · rw [if_pos hgen]
            exact cleanupChunks_nil hnd hsub
          · rw [if_neg hgen] at h ⊢
            cases hm : mergeAudioFiles fs gen ("audiobook_" ++ lang ++ ".mp3") with
            | ok fs2 =>
              rw [hm] at h
              exact absurd h (by simp)
            | error e1 =>
              exact cleanupChunks_nil hnd hsub

/-- Witness for C6: the spec's batch failure scenario — a three-page
document whose second segment's synthesis (and its retry on the same
untranslated text) fails — returns a failure and leaves no files. -/
def page1 : Text := "This is the first page text.".toList

def page2 : Text := "Second page text right here.".toList

def page3 : Text := "And the third page is here.".toList

def envFailSecond : Env :=
  ⟨fun _ => "eng", fun t _ => .ok t,
    fun _ t => if t = page2 then .error "synth down" else .ok [], fun _ => none⟩

def sess3 : Session := ⟨"S", [], [page1, page2, page3],
  some ⟨"en", "English", "high"⟩⟩

def sessions3 : String → Option Session := fun s =>
  if s = "S" then some sess3 else none

theorem batch_all_or_nothing_witness :
    (generateAudiobook envFailSecond sessions3 "S" "en" (.num 1) "female").2 = [] :=
  batch_all_or_nothing envFailSecond sessions3 "S" "en" (.num 1) "female"
    "Speech generation failed for en: synth down" (by decide)


end PdfReader

